import Mathlib

/-!
# Campaign popup service: decision engine, cache data model and write path

A shallow embedding of

* `internal/campaign/entity.go`   (the `Campaign` entity, the `Repository` interface),
* `internal/campaign/service.go`  (`GetPopup`, `RegisterImpression`, the admin mutations),
* `internal/platform/redis/repository.go` (the cache layout and its commands),
* `internal/platform/postgres/store.go`   (the durable store, as far as the write path needs it).

Conventions of the embedding.

* Go `int64` / `int` values are `Int`; where the range matters it is stated with `isInt64`.
* A `time.Time` is the instant it denotes, an `Int` (nanoseconds); `Before` is `<`, `After` is `>`.
* An `error` is its message, a `String`; a call that can fail returns `Except String _`.
* The cache is an explicit state `redis.Cache`; outcomes of the network are explicit inputs
  (`redis.ReadFaults` for the read path, an optional error per pipelined command for writes).
* `encoding/json` is not part of the repository: it is the parameter `JSONCodec`.
-/

/-! ## strconv -/

namespace strconv

/-- Range of a Go `int64`. -/
def isInt64 (n : Int) : Prop := -(2 : Int) ^ 63 ≤ n ∧ n < (2 : Int) ^ 63

instance (n : Int) : Decidable (isInt64 n) := by unfold isInt64; infer_instance

/-- A decimal digit byte. -/
def isDigit (c : Char) : Bool := decide (48 ≤ c.toNat ∧ c.toNat ≤ 57)

/-- Value of a decimal digit byte. -/
def digitVal (c : Char) : Nat := c.toNat - 48

/-- The byte of the decimal digit `d`. -/
def digitChar (d : Nat) : Char := Char.ofNat (48 + d)

/-- The digit loop of `ParseUint(s, 10, _)`: every byte must be a decimal digit
(an underscore is accepted only for base 0). The range check is made by the caller. -/
def parseDigits : List Char → Nat → Option Nat
  | [], acc => some acc
  | c :: cs, acc => if isDigit c then parseDigits cs (acc * 10 + digitVal c) else none

/-- `ParseInt(s, 10, 64)`: `none` stands for a non-nil error (syntax or range).
An optional sign, then at least one digit, all digits; the magnitude must fit `int64`. -/
def ParseInt (s : String) : Option Int :=
  match s.data with
  | [] => none
  | c :: cs =>
    let neg : Bool := decide (c = '-')
    let ds : List Char := if c = '+' ∨ c = '-' then cs else c :: cs
    match ds with
    | [] => none
    | _ :: _ =>
      match parseDigits ds 0 with
      | none => none
      | some un =>
        if neg then (if un > 2 ^ 63 then none else some (-(un : Int)))
        else (if un ≥ 2 ^ 63 then none else some (un : Int))

/-- Decimal digits of `n`, most significant first; `fuel` bounds the number of digits. -/
def natDigits : Nat → Nat → List Char
  | 0, _ => []
  | fuel + 1, n =>
    if n < 10 then [digitChar n] else natDigits fuel (n / 10) ++ [digitChar (n % 10)]

/-- `FormatInt(i, 10)`: canonical decimal, a leading `-` for a negative number. -/
def FormatInt (i : Int) : String :=
  if i < 0 then String.mk ('-' :: natDigits (i.natAbs + 1) i.natAbs)
  else String.mk (natDigits (i.natAbs + 1) i.natAbs)

end strconv

/-! ## internal/campaign/entity.go -/

namespace campaign

/-- `TargetType` is a Go string type. -/
abbrev TargetType := String

def TargetTypeAll : TargetType := "ALL"
def TargetTypeSegment : TargetType := "SEGMENT"

/-- The `Campaign` entity. -/
structure Campaign where
  ID : Int
  Title : String
  ImageURL : String
  ActionURL : String
  Priority : Int
  StartTime : Int
  EndTime : Int
  MaxFrequency : Int
  TargetType : TargetType
  TargetSegment : String
  IsActive : Bool
deriving DecidableEq

/-- `json.Marshal` and `json.Unmarshal` at type `Campaign` (the library is not part of the
repository). `Marshal` yields the bytes that `SaveCampaign` stores (it ignores the error);
`Unmarshal` is `none` when decoding fails. -/
structure JSONCodec where
  Marshal : Campaign → String
  Unmarshal : String → Option Campaign

deriving instance DecidableEq for Except

/-- The read methods of the `Repository` interface, as seen by one call of `GetPopup`.
A Go map is a partial function. -/
structure Repository where
  GetActiveCampaignIDs : Except String (List Int)
  GetCampaignsMetadata : List Int → Except String (Int → Option Campaign)
  IsUserTargeted : Int → Int → Except String Bool
  GetUserImpressions : Int → List Int → Except String (Int → Option Int)

end campaign

/-! ## internal/platform/redis/repository.go -/

namespace redis

open campaign

/-- Bytewise lexicographic `≤` on members (the order of `memcmp`). -/
def bytesLE : List Char → List Char → Bool
  | [], _ => true
  | _ :: _, [] => false
  | a :: as, b :: bs =>
    if a.toNat < b.toNat then true
    else if b.toNat < a.toNat then false
    else bytesLE as bs

/-- `zrevLE a b`: the entry `a` (member, score) is listed no later than `b` by `ZREVRANGE`:
higher score first, equal scores by member, greater member first. -/
def zrevLE (a b : String × Int) : Prop :=
  b.2 < a.2 ∨ (b.2 = a.2 ∧ bytesLE b.1.data a.1.data = true)

instance : DecidableRel zrevLE := fun a b => by unfold zrevLE; infer_instance

/-- The cache. Keys are addressed by the integer that their name embeds.
* `active`: the sorted set `campaigns:active`, one (member, score) entry per member;
* `metaKeys id`: the string at `campaign:<id>:meta`;
* `users id off`: bit `off` of the bitmap `campaign:<id>:users`;
* `impressions u id`: field `<id>` of the hash `user:<u>:impressions` (kept a decimal
  `int64` by `HINCRBY`, its only writer);
* `impressionsTTL u`: time to live, in seconds, set on `user:<u>:impressions`;
* `metaTTL id`: time to live, in seconds, set on `campaign:<id>:meta`.
The passing of time (a key reaching its time to live) is not a transition of the model. -/
structure Cache where
  active : List (String × Int)
  metaKeys : Int → Option String
  users : Int → Int → Bool
  impressions : Int → Int → Option Int
  impressionsTTL : Int → Option Nat
  metaTTL : Int → Option Nat

/-- The empty cache. -/
def Cache.empty : Cache :=
  { active := [], metaKeys := fun _ => none, users := fun _ _ => false,
    impressions := fun _ _ => none, impressionsTTL := fun _ => none,
    metaTTL := fun _ => none }

/-- `ZREVRANGE key 0 -1`. -/
def ZRevRange (z : List (String × Int)) : List String :=
  (z.insertionSort zrevLE).map Prod.fst

/-- `ZADD key score member`: insert the member or update its score. -/
def ZAdd (z : List (String × Int)) (score : Int) (member : String) : List (String × Int) :=
  (member, score) :: z.filter (fun e => decide (e.1 ≠ member))

/-- `ZREM key member`. -/
def ZRem (z : List (String × Int)) (member : String) : List (String × Int) :=
  z.filter (fun e => decide (e.1 ≠ member))

/-- Round `a` to a multiple of `2 ^ e`, to nearest, ties to the even quotient. -/
def roundShift (a e : Nat) : Nat :=
  let q := a / 2 ^ e
  let r := a % 2 ^ e
  let h := 2 ^ e / 2
  if r < h then q * 2 ^ e
  else if h < r then (q + 1) * 2 ^ e
  else if q % 2 = 0 then q * 2 ^ e else (q + 1) * 2 ^ e

/-- Number of binary digits of `a`, for `a < 2 ^ fuel`. -/
def bitLen : Nat → Nat → Nat
  | 0, _ => 0
  | fuel + 1, a => if a = 0 then 0 else bitLen fuel (a / 2) + 1

/-- `float64(x)` for a Go `int`: the value of the conversion, itself an integer. Exact
below `2 ^ 53` in magnitude, otherwise rounded to 53 significant bits. -/
def float64 (x : Int) : Int :=
  let a := x.natAbs
  let r := if a < 2 ^ 53 then a else roundShift a (bitLen a a - 53)
  if x < 0 then -(r : Int) else (r : Int)

/-- Outcomes of the cache reads of one `GetPopup` call that the cache state does not
determine: the error, if any, of each command.
* `zrevrange`: of `ZREVRANGE campaigns:active`;
* `exec`: of `pipe.Exec` for the metadata batch, when it is an error other than `redis.Nil`
  (how the client derives it from the replies is not part of the repository: it is an
  input of its own);
* `get id`: of the single `GET campaign:<id>:meta` inside the batch;
* `getbit id u`: of `GETBIT campaign:<id>:users u` (an offset the server rejects is one
  such error);
* `hmget u ids`: of `HMGET user:<u>:impressions <ids>`. -/
structure ReadFaults where
  zrevrange : Option String
  exec : Option String
  get : Int → Option String
  getbit : Int → Int → Option String
  hmget : Int → List Int → Option String

/-- No command fails. -/
def ReadFaults.none : ReadFaults :=
  { zrevrange := Option.none, exec := Option.none, get := fun _ => Option.none,
    getbit := fun _ _ => Option.none, hmget := fun _ _ => Option.none }

/-- The id that `GetActiveCampaignIDs` puts in the slot of `member`: the parsed value, or the
zero value the slot was made with when the member does not parse. -/
def slotID (member : String) : Int := (strconv.ParseInt member).getD 0

/-- `GetActiveCampaignIDs`: the slice has one slot per member, in the order of `ZREVRANGE`. -/
def GetActiveCampaignIDs (s : Cache) (f : ReadFaults) : Except String (List Int) :=
  match f.zrevrange with
  | some err => .error ("failed to get active campaigns: " ++ err)
  | Option.none => .ok ((ZRevRange s.active).map slotID)

/-- The body of the result loop of `GetCampaignsMetadata` for one id: a failed command, a
missing key (`redis.Nil`) and a value that does not decode yield no entry; a decoded
campaign gets `ID` set to the id it was fetched for. -/
def decodeMeta (codec : JSONCodec) (s : Cache) (f : ReadFaults) (id : Int) : Option Campaign :=
  match f.get id with
  | some _ => Option.none
  | Option.none =>
    match s.metaKeys id with
    | Option.none => Option.none
    | some val =>
      match codec.Unmarshal val with
      | some c => some { c with ID := id }
      | Option.none => Option.none

/-- `GetCampaignsMetadata`: one `GET` per id in a pipeline; an error of `Exec` other than
`redis.Nil` is returned, otherwise the map of the ids that decode. -/
def GetCampaignsMetadata (codec : JSONCodec) (s : Cache) (f : ReadFaults) (ids : List Int) :
    Except String (Int → Option Campaign) :=
  match f.exec with
  | some err => .error ("failed to exec pipeline metadata: " ++ err)
  | Option.none => .ok (fun id => if id ∈ ids then decodeMeta codec s f id else Option.none)

/-- `IsUserTargeted`: `GETBIT campaign:<campaignID>:users userID`. -/
def IsUserTargeted (s : Cache) (f : ReadFaults) (campaignID userID : Int) : Except String Bool :=
  match f.getbit campaignID userID with
  | some err => .error err
  | Option.none => .ok (s.users campaignID userID)

/-- `GetUserImpressions`: `HMGET user:<userID>:impressions` over the ids; a missing field
counts 0. -/
def GetUserImpressions (s : Cache) (f : ReadFaults) (userID : Int) (campaignIDs : List Int) :
    Except String (Int → Option Int) :=
  match f.hmget userID campaignIDs with
  | some err => .error err
  | Option.none =>
    .ok (fun id => if id ∈ campaignIDs then some ((s.impressions userID id).getD 0) else Option.none)

/-- The cache seen through the `Repository` interface during one decision. -/
def repository (codec : JSONCodec) (s : Cache) (f : ReadFaults) : Repository :=
  { GetActiveCampaignIDs := GetActiveCampaignIDs s f
    GetCampaignsMetadata := GetCampaignsMetadata codec s f
    IsUserTargeted := IsUserTargeted s f
    GetUserImpressions := GetUserImpressions s f }

/-- Errors of the commands queued in one write pipeline, by position in the queue. A
command with an error takes no effect; `Exec` returns the first error. -/
abbrev PipeFaults := Nat → Option String

/-- No queued command fails. -/
def PipeFaults.none : PipeFaults := fun _ => Option.none

/-- The error returned by `pipe.Exec` for `n` queued commands. -/
def execErr (pf : PipeFaults) (n : Nat) : Option String :=
  (List.range n).findSome? pf

/-- `IncrementImpression`: `HINCRBY user:<u>:impressions <id> 1`, which fails when the
counter would leave `int64`, then `EXPIRE ... 24h`, whose outcome is ignored. -/
def IncrementImpression (s : Cache) (hincrby expire : Option String) (userID campaignID : Int) :
    Option String × Cache :=
  match hincrby with
  | some err => (some err, s)
  | Option.none =>
    let v := (s.impressions userID campaignID).getD 0
    if v + 1 ≥ 2 ^ 63 then (some "ERR increment or decrement would overflow", s)
    else
      let counters := Function.update (s.impressions userID) campaignID (some (v + 1))
      let s1 : Cache := { s with impressions := Function.update s.impressions userID counters }
      let s2 : Cache := match expire with
        | some _ => s1
        | Option.none =>
          { s1 with impressionsTTL := Function.update s1.impressionsTTL userID (some (24 * 3600)) }
      (Option.none, s2)

/-- `SaveCampaign`: a pipeline of `SET campaign:<id>:meta <json>` (no expiry) and then
`ZADD campaigns:active <priority> <id>` when the campaign is active, `ZREM` when it is not. -/
def SaveCampaign (codec : JSONCodec) (s : Cache) (pf : PipeFaults) (c : Campaign) :
    Option String × Cache :=
  let s1 : Cache := match pf 0 with
    | some _ => s
    | Option.none =>
      { s with metaKeys := Function.update s.metaKeys c.ID (some (codec.Marshal c)),
               metaTTL := Function.update s.metaTTL c.ID Option.none }
  let s2 : Cache := match pf 1 with
    | some _ => s1
    | Option.none =>
      if c.IsActive then
        { s1 with active := ZAdd s1.active (float64 c.Priority) (strconv.FormatInt c.ID) }
      else
        { s1 with active := ZRem s1.active (strconv.FormatInt c.ID) }
  (execErr pf 2, s2)

/-- `RemoveCampaign`: a pipeline of `ZREM campaigns:active <id>`, `DEL campaign:<id>:meta`
and `EXPIRE campaign:<id>:meta 24h` (which only touches a key that exists). -/
def RemoveCampaign (s : Cache) (pf : PipeFaults) (id : Int) : Option String × Cache :=
  let s1 : Cache := match pf 0 with
    | some _ => s
    | Option.none => { s with active := ZRem s.active (strconv.FormatInt id) }
  let s2 : Cache := match pf 1 with
    | some _ => s1
    | Option.none =>
      { s1 with metaKeys := Function.update s1.metaKeys id Option.none,
                metaTTL := Function.update s1.metaTTL id Option.none }
  let s3 : Cache := match pf 2 with
    | some _ => s2
    | Option.none =>
      if (s2.metaKeys id).isSome then
        { s2 with metaTTL := Function.update s2.metaTTL id (some (24 * 3600)) }
      else s2
  (execErr pf 3, s3)

/-! ### Vocabulary of the claims about one decision -/

/-- The campaign `camp`, fetched for `id`, passes the time, target and frequency checks of a
decision for user `u` at `now`: the instant is neither before the start nor after the end,
a `SEGMENT` campaign has its membership bit read and set, and the counter is read and
below the cap. -/
def passes (s : Cache) (f : ReadFaults) (now u id : Int) (camp : Campaign) : Prop :=
  camp.StartTime ≤ now ∧ now ≤ camp.EndTime ∧
  (camp.TargetType = TargetTypeSegment → f.getbit id u = Option.none ∧ s.users id u = true) ∧
  f.hmget u [id] = Option.none ∧
  (s.impressions u id).getD 0 < camp.MaxFrequency

instance (s : Cache) (f : ReadFaults) (now u id : Int) (camp : Campaign) :
    Decidable (passes s f now u id camp) := by unfold passes; infer_instance

/-- The outcome of one iteration of the decision for candidate `id`: the campaign when it
has metadata and passes the checks. -/
def pick (codec : JSONCodec) (s : Cache) (f : ReadFaults) (now u id : Int) : Option Campaign :=
  match decodeMeta codec s f id with
  | Option.none => Option.none
  | some camp => if passes s f now u id camp then some camp else Option.none

/-- Candidate `id` has metadata and passes the time, target and frequency checks. -/
def eligible (codec : JSONCodec) (s : Cache) (f : ReadFaults) (now u id : Int) : Prop :=
  (pick codec s f now u id).isSome = true

instance (codec : JSONCodec) (s : Cache) (f : ReadFaults) (now u id : Int) :
    Decidable (eligible codec s f now u id) := by unfold eligible; infer_instance

/-- A successful `SaveCampaign` of `c` takes the cache from `s` to `s1`. -/
def saved (codec : JSONCodec) (s : Cache) (c : Campaign) (s1 : Cache) : Prop :=
  ∃ pf : PipeFaults, SaveCampaign codec s pf c = (Option.none, s1)

/-- A successful `RemoveCampaign` of `id` takes the cache from `s` to `s1`. -/
def removed (s : Cache) (id : Int) (s1 : Cache) : Prop :=
  ∃ pf : PipeFaults, RemoveCampaign s pf id = (Option.none, s1)

/-- A write of the cache synchronizer: `upsert` is `SaveCampaign`, `remove` is
`RemoveCampaign`. -/
inductive Op where
  | upsert (c : Campaign)
  | remove (id : Int)

/-- The campaign id an operation is about. -/
def Op.id : Op → Int
  | .upsert c => c.ID
  | .remove id => id

/-- Reading of "the most recent upsert for the id had `active = true` and the id has not
been removed since", over a history listed most recent first: the most recent operation
about the id decides. -/
def latestActive (id : Int) : List Op → Bool
  | [] => false
  | .upsert c :: hist => if c.ID = id then c.IsActive else latestActive id hist
  | .remove i :: hist => if i = id then false else latestActive id hist

/-- `Reachable codec hist s`: the cache `s` is reached from the empty cache by the
successful calls `hist` (most recent first). -/
inductive Reachable (codec : JSONCodec) : List Op → Cache → Prop where
  | empty : Reachable codec [] Cache.empty
  | upsert {hist : List Op} {s s1 : Cache} (c : Campaign) :
      Reachable codec hist s → saved codec s c s1 → Reachable codec (.upsert c :: hist) s1
  | remove {hist : List Op} {s s1 : Cache} (id : Int) :
      Reachable codec hist s → removed s id s1 → Reachable codec (.remove id :: hist) s1

/-- Reading of "the parsed `int64` values of the members that are valid decimal integers,
in the same order": a member that does not parse contributes nothing. -/
def validIDs (members : List String) : List Int := members.filterMap strconv.ParseInt

/-- Every member of the active index is a campaign id as `SaveCampaign` writes it. -/
def wellFormedIndex (s : Cache) : Prop :=
  ∀ e ∈ s.active, ∃ id : Int, strconv.isInt64 id ∧ e.1 = strconv.FormatInt id

end redis

/-! ## internal/platform/postgres/store.go -/

namespace postgres

open campaign

/-- The table `campaigns`, by id. -/
structure DB where
  campaigns : Int → Option Campaign

/-- The columns written by `Create` and `Update` (`target_segment` is not one of them). -/
def row (id : Int) (c : Campaign) : Campaign :=
  { c with ID := id, TargetSegment := "" }

/-- `Store.Create`: `INSERT ... RETURNING id`, scanned into `c.ID`. The outcome of the
statement is an input: an error, or the id the database assigned. Returns the error, the
campaign as the caller sees it afterwards, and the table. -/
def Create (db : DB) (outcome : Except String Int) (c : Campaign) :
    Option String × Campaign × DB :=
  match outcome with
  | .error err => (some ("failed to create campaign: " ++ err), c, db)
  | .ok id =>
    (none, { c with ID := id }, { campaigns := Function.update db.campaigns id (some (row id c)) })

/-- `Store.Update`: `UPDATE ... WHERE id = c.ID`; no row affected is an error. -/
def Update (db : DB) (outcome : Option String) (c : Campaign) : Option String × DB :=
  match outcome with
  | some err => (some ("failed to update campaign: " ++ err), db)
  | none =>
    match db.campaigns c.ID with
    | none => (some "campaign not found", db)
    | some _ => (none, { campaigns := Function.update db.campaigns c.ID (some (row c.ID c)) })

/-- `Store.Delete`: `DELETE FROM campaigns WHERE id = $1`. -/
def Delete (db : DB) (outcome : Option String) (id : Int) : Option String × DB :=
  match outcome with
  | some err => (some err, db)
  | none => (none, { campaigns := Function.update db.campaigns id none })

end postgres

/-! ## internal/campaign/service.go: the decision -/

namespace campaign

/-- The evaluation loop of `GetPopup` over the candidate ids, in index order. -/
def evalLoop (repo : Repository) (campMap : Int → Option Campaign) (now userID : Int) :
    List Int → Option Campaign
  | [] => none
  | id :: rest =>
    match campMap id with
    | none => evalLoop repo campMap now userID rest
    | some camp =>
      -- A. Time Check
      if now < camp.StartTime ∨ now > camp.EndTime then evalLoop repo campMap now userID rest
      else
        -- B. Target Check
        match (if camp.TargetType = TargetTypeSegment then repo.IsUserTargeted id userID
               else .ok true) with
        | .error _ => evalLoop repo campMap now userID rest
        | .ok isTargeted =>
          if !isTargeted then evalLoop repo campMap now userID rest
          else
            -- C. Frequency Cap Check
            match repo.GetUserImpressions userID [id] with
            | .error _ => evalLoop repo campMap now userID rest
            | .ok impressionsMap =>
              let seenCount := (impressionsMap id).getD 0
              if seenCount ≥ camp.MaxFrequency then evalLoop repo campMap now userID rest
              else some camp

/-- `Service.GetPopup`; `now` is the reading of `time.Now()`. -/
def GetPopup (repo : Repository) (now userID : Int) : Except String (Option Campaign) :=
  match repo.GetActiveCampaignIDs with
  | .error err => .error err
  | .ok activeIDs =>
    if activeIDs.length = 0 then .ok none
    else
      match repo.GetCampaignsMetadata activeIDs with
      | .error err => .error err
      | .ok campMap => .ok (evalLoop repo campMap now userID activeIDs)

end campaign

/-! ## internal/campaign/service.go: impressions and administrative mutations -/

namespace campaign

/-- The two stores a `Service` holds: `repo` (cache) and `store` (durable). -/
structure World where
  cache : redis.Cache
  db : postgres.DB

/-- `Service.RegisterImpression`. -/
def RegisterImpression (s : redis.Cache) (hincrby expire : Option String)
    (userID campaignID : Int) : Option String × redis.Cache :=
  redis.IncrementImpression s hincrby expire userID campaignID

/-- The cache after `n` calls of `RegisterImpression` for the same user and campaign, each
of which returns no error (`expire k` is the outcome of the ignored `EXPIRE` of call `k`);
`none` when one of the calls returns an error. -/
def registerTimes (s : redis.Cache) (expire : Nat → Option String) (userID campaignID : Int) :
    Nat → Option redis.Cache
  | 0 => some s
  | n + 1 =>
    match registerTimes s expire userID campaignID n with
    | none => none
    | some s1 =>
      match RegisterImpression s1 none (expire n) userID campaignID with
      | (none, s2) => some s2
      | (some _, _) => none

/-- `Service.CreateCampaign`: returns the error, the campaign as the caller sees it
afterwards, and the two stores. -/
def CreateCampaign (codec : JSONCodec) (w : World) (dbOutcome : Except String Int)
    (pf : redis.PipeFaults) (c : Campaign) : Option String × Campaign × World :=
  match postgres.Create w.db dbOutcome c with
  | (some err, c1, db1) => (some err, c1, { w with db := db1 })
  | (none, c1, db1) =>
    let r := redis.SaveCampaign codec w.cache pf c1
    (r.1, c1, { cache := r.2, db := db1 })

/-- `Service.UpdateCampaign`. -/
def UpdateCampaign (codec : JSONCodec) (w : World) (dbOutcome : Option String)
    (pf : redis.PipeFaults) (c : Campaign) : Option String × World :=
  match postgres.Update w.db dbOutcome c with
  | (some err, db1) => (some err, { w with db := db1 })
  | (none, db1) =>
    let r := redis.SaveCampaign codec w.cache pf c
    (r.1, { cache := r.2, db := db1 })

/-- `Service.DeleteCampaign`. -/
def DeleteCampaign (w : World) (dbOutcome : Option String)
    (pf : redis.PipeFaults) (id : Int) : Option String × World :=
  match postgres.Delete w.db dbOutcome id with
  | (some err, db1) => (some err, { w with db := db1 })
  | (none, db1) =>
    let r := redis.RemoveCampaign w.cache pf id
    (r.1, { cache := r.2, db := db1 })

end campaign

/-! ## Concrete inputs -/

namespace fixtures

open campaign redis

/-- A codec that encodes the campaigns of a table by their position in it, and nothing
else: an instance of `JSONCodec` that round-trips exactly the campaigns of the table. -/
def tableCodec (cs : List Campaign) : JSONCodec :=
  { Marshal := fun c => if c ∈ cs then strconv.FormatInt (cs.indexOf c) else ""
    Unmarshal := fun s =>
      match strconv.ParseInt s with
      | some i => cs.get? i.toNat
      | none => none }

/-- Campaign A: id 1, priority 10, everyone, at most 3 impressions, window 0 to 100. -/
def campA : Campaign :=
  { ID := 1, Title := "A", ImageURL := "", ActionURL := "", Priority := 10, StartTime := 0,
    EndTime := 100, MaxFrequency := 3, TargetType := TargetTypeAll, TargetSegment := "",
    IsActive := true }

/-- Campaign B: id 2, priority 5, otherwise as A. -/
def campB : Campaign := { campA with ID := 2, Title := "B", Priority := 5 }

/-- Campaign S: id 3, priority 7, segment-targeted, at most 2 impressions. -/
def campS : Campaign :=
  { campA with ID := 3, Title := "S", Priority := 7, MaxFrequency := 2,
               TargetType := TargetTypeSegment, TargetSegment := "vip" }

/-- The codec of the fixtures. -/
def codec : JSONCodec := tableCodec [campA, campB, campS]

/-- The cache after saving A alone. -/
def cacheA : Cache := (SaveCampaign codec Cache.empty PipeFaults.none campA).2

/-- The cache after saving A and then B. -/
def cacheAB : Cache := (SaveCampaign codec cacheA PipeFaults.none campB).2

/-- The cache after saving A and three impressions of A by user 7. -/
def cacheA3 : Cache := (registerTimes cacheA (fun _ => none) 7 1 3).getD cacheA

/-- The cache after saving A, B and S, with three impressions of A by user 7 and user 7
(only) in the segment of S. -/
def cacheS : Cache :=
  { (SaveCampaign codec
      ((registerTimes cacheAB (fun _ => none) 7 1 3).getD cacheAB) PipeFaults.none campS).2
    with users := fun id u => decide (id = 3 ∧ u = 7) }

/-- Campaign B, deactivated. -/
def campBoff : Campaign := { campB with IsActive := false }

/-- The cache after saving A, B and then B deactivated. -/
def cacheBoff : Cache := (SaveCampaign codec cacheAB PipeFaults.none campBoff).2

/-- The history of `cacheBoff`, most recent first. -/
def histBoff : List Op := [.upsert campBoff, .upsert campB, .upsert campA]

/-- Read outcomes where only the `Exec` of the metadata batch fails. -/
def execDown : ReadFaults := { ReadFaults.none with exec := some "connection refused" }

/-- Read outcomes where only the counter read of user 7 for campaign 1 fails. -/
def hmgetDown : ReadFaults :=
  { ReadFaults.none with
      hmget := fun u ids => if u = 7 ∧ ids = [1] then some "timeout" else Option.none }

/-- A pipeline whose first command fails. -/
def firstFails : PipeFaults := fun i => if i = 0 then some "timeout" else Option.none

/-- Campaign N: id 9, priority 99. -/
def campN : Campaign := { campA with ID := 9, Title := "N", Priority := 99 }

/-- The cache after A and B are saved and then a `SaveCampaign` of N applies partially:
the `SET` of the metadata fails, the `ZADD` takes effect. -/
def cacheStale : Cache := (SaveCampaign codec cacheAB firstFails campN).2

/-- The cache `cacheA` with a durable store that holds A. -/
def world : World :=
  { cache := cacheA,
    db := { campaigns := fun id => if id = 1 then some (postgres.row 1 campA) else none } }

/-- The cache after saving A and B and then removing A. -/
def cacheRemoved : Cache := (RemoveCampaign cacheAB PipeFaults.none 1).2

/-- Campaign Z: id 0, not active. -/
def campZ : Campaign := { campA with ID := 0, Title := "Z", IsActive := false }

/-- A codec for Z. -/
def codecZ : JSONCodec := tableCodec [campZ]

/-- A cache where Z has been saved (metadata written, no index entry) and whose active
index holds the members `x`, which is not a number, with score 5, and `7` with score 1. -/
def cacheBad : Cache :=
  { (SaveCampaign codecZ Cache.empty PipeFaults.none campZ).2 with
      active := [("x", 5), ("7", 1)] }

end fixtures

/-! # Properties -/

/-! ## strconv: formatting and parsing are inverse -/

namespace strconv

theorem digitChar_toNat (d : Nat) (h : d < 10) : (digitChar d).toNat = 48 + d := by
  interval_cases d <;> rfl

theorem isDigit_digitChar (d : Nat) (h : d < 10) : isDigit (digitChar d) = true := by
  simp [isDigit, digitChar_toNat d h]; omega

theorem digitVal_digitChar (d : Nat) (h : d < 10) : digitVal (digitChar d) = d := by
  simp [digitVal, digitChar_toNat d h]

theorem parseDigits_append (l₁ l₂ : List Char) (acc : Nat) :
    parseDigits (l₁ ++ l₂) acc = (parseDigits l₁ acc).bind (parseDigits l₂) := by
  induction l₁ generalizing acc with
  | nil => simp [parseDigits]
  | cons c cs ih =>
    simp only [List.cons_append, parseDigits]
    split
    · exact ih _
    · rfl

theorem parseDigits_natDigits (fuel n : Nat) (h : n < fuel) :
    parseDigits (natDigits fuel n) 0 = some n := by
  induction fuel generalizing n with
  | zero => omega
  | succ k ih =>
    unfold natDigits
    split
    · rename_i h10
      simp [parseDigits, isDigit_digitChar n h10, digitVal_digitChar n h10]
    · rename_i h10
      have hk : n / 10 < k := by omega
      have hm : n % 10 < 10 := Nat.mod_lt _ (by decide)
      rw [parseDigits_append, ih _ hk]
      simp [parseDigits, isDigit_digitChar _ hm, digitVal_digitChar _ hm]
      omega

/-- The first byte of a decimal rendering is a digit. -/
theorem natDigits_head (fuel n : Nat) (h : n < fuel) :
    ∃ c cs, natDigits fuel n = c :: cs ∧ isDigit c = true := by
  induction fuel generalizing n with
  | zero => omega
  | succ k ih =>
    unfold natDigits
    split
    · rename_i h10
      exact ⟨_, [], rfl, isDigit_digitChar n h10⟩
    · obtain ⟨c, cs, hc, hd⟩ := ih (n / 10) (by omega)
      exact ⟨c, cs ++ [digitChar (n % 10)], by simp [hc], hd⟩

theorem ParseInt_FormatInt (n : Int) (h : isInt64 n) : ParseInt (FormatInt n) = some n := by
  obtain ⟨c, cs, hc, hd⟩ := natDigits_head (n.natAbs + 1) n.natAbs (by omega)
  have hp := parseDigits_natDigits (n.natAbs + 1) n.natAbs (by omega)
  have hc1 : c ≠ '+' := by rintro rfl; revert hd; decide
  have hc2 : c ≠ '-' := by rintro rfl; revert hd; decide
  unfold isInt64 at h
  unfold ParseInt FormatInt
  by_cases hn : n < 0
  · simp only [hn, if_true]
    simp only [hc] at hp ⊢
    simp [hp]
    have := abs_of_neg hn
    constructor
    · omega
    · omega
  · simp only [hn, if_false]
    simp only [hc] at hp ⊢
    simp [hc1, hc2, hp]
    have := abs_of_nonneg (not_lt.mp hn)
    constructor
    · omega
    · omega

theorem isDigit_minus : isDigit '-' = false := by decide

theorem FormatInt_injective : Function.Injective FormatInt := by
  intro a b hab
  have ha := parseDigits_natDigits (a.natAbs + 1) a.natAbs (by omega)
  have hb := parseDigits_natDigits (b.natAbs + 1) b.natAbs (by omega)
  obtain ⟨c, cs, hc, hd⟩ := natDigits_head (a.natAbs + 1) a.natAbs (by omega)
  obtain ⟨c', cs', hc', hd'⟩ := natDigits_head (b.natAbs + 1) b.natAbs (by omega)
  unfold FormatInt at hab
  by_cases h1 : a < 0 <;> by_cases h2 : b < 0 <;> simp only [h1, h2, if_true, if_false] at hab
  · have h := congrArg String.data hab
    simp only [List.cons.injEq, true_and] at h
    rw [h, hb] at ha
    have := Option.some.inj ha
    omega
  · have h := congrArg String.data hab
    simp only [hc', List.cons.injEq] at h
    rw [← h.1, isDigit_minus] at hd'
    exact absurd hd' (by decide)
  · have h := congrArg String.data hab
    simp only [hc, List.cons.injEq] at h
    rw [h.1, isDigit_minus] at hd
    exact absurd hd (by decide)
  · have h := congrArg String.data hab
    simp only at h
    rw [h, hb] at ha
    have := Option.some.inj ha
    omega
end strconv

/-! ## The decision as a search for the first eligible candidate -/

namespace campaign

open redis

/-- The loop of `GetPopup`, run on the cache, returns the first candidate in the list that
has metadata and passes the checks. -/
theorem evalLoop_eq_findSome (codec : JSONCodec) (s : Cache) (f : ReadFaults) (now u : Int)
    (campMap : Int → Option Campaign) (ids : List Int)
    (h : ∀ id ∈ ids, campMap id = decodeMeta codec s f id) :
    evalLoop (repository codec s f) campMap now u ids = ids.findSome? (pick codec s f now u) := by
  induction ids with
  | nil => rfl
  | cons id rest ih =>
    have ih1 := ih (fun j hj => h j (List.mem_cons_of_mem _ hj))
    have hid := h id (List.mem_cons_self _ _)
    have hr1 : (repository codec s f).IsUserTargeted = IsUserTargeted s f := rfl
    have hr2 : (repository codec s f).GetUserImpressions = GetUserImpressions s f := rfl
    simp only [evalLoop, List.findSome?, pick, hid, ih1, hr1, hr2]
    cases hm : decodeMeta codec s f id with
    | none => simp
    | some camp =>
      simp only [passes, IsUserTargeted, GetUserImpressions]
      by_cases ht : now < camp.StartTime ∨ now > camp.EndTime
      · have : ¬ (camp.StartTime ≤ now ∧ now ≤ camp.EndTime) := by omega
        rw [if_pos ht, if_neg (fun h => this ⟨h.1, h.2.1⟩)]
      · have ht1 : camp.StartTime ≤ now := by omega
        have ht2 : now ≤ camp.EndTime := by omega
        simp only [ht, if_false, ht1, ht2, true_and]
        by_cases hseg : camp.TargetType = TargetTypeSegment
        · simp only [hseg, if_true, true_implies]
          cases hg : f.getbit id u with
          | some e => simp [ih1]
          | none =>
            cases hb : s.users id u with
            | false => simp [ih1]
            | true =>
              cases hh : f.hmget u [id] with
              | some e => simp [ih1]
              | none =>
                by_cases hc : (s.impressions u id).getD 0 ≥ camp.MaxFrequency
                · have : ¬ ((s.impressions u id).getD 0 < camp.MaxFrequency) := by omega
                  simp [hc, this, ih1]
                · have : (s.impressions u id).getD 0 < camp.MaxFrequency := by omega
                  simp [hc, this]
        · simp only [hseg, if_false, false_implies, true_and]
          cases hh : f.hmget u [id] with
          | some e => simp [ih1]
          | none =>
            by_cases hc : (s.impressions u id).getD 0 ≥ camp.MaxFrequency
            · have : ¬ ((s.impressions u id).getD 0 < camp.MaxFrequency) := by omega
              simp [hc, this, ih1]
            · have : (s.impressions u id).getD 0 < camp.MaxFrequency := by omega
              simp [hc, this]

/-- `GetPopup` on the cache, in closed form. -/
theorem GetPopup_redis (codec : JSONCodec) (s : Cache) (f : ReadFaults) (now u : Int) :
    GetPopup (repository codec s f) now u =
      match f.zrevrange with
      | some err => .error ("failed to get active campaigns: " ++ err)
      | none =>
        if s.active = [] then .ok none
        else
          match f.exec with
          | some err => .error ("failed to exec pipeline metadata: " ++ err)
          | none => .ok (((ZRevRange s.active).map slotID).findSome? (pick codec s f now u)) := by
  have hr0 : (repository codec s f).GetActiveCampaignIDs = GetActiveCampaignIDs s f := rfl
  have hr1 : (repository codec s f).GetCampaignsMetadata = GetCampaignsMetadata codec s f := rfl
  simp only [GetPopup, hr0, hr1, GetActiveCampaignIDs, GetCampaignsMetadata]
  cases hz : f.zrevrange with
  | some e => rfl
  | none =>
    simp only [List.length_eq_zero, List.map_eq_nil_iff, ZRevRange]
    by_cases he : s.active = []
    · simp [he]
    · have he2 : ¬ (List.insertionSort zrevLE s.active = []) := by
        intro h0
        apply he
        have := (List.perm_insertionSort zrevLE s.active).length_eq
        rw [h0] at this
        exact List.length_eq_zero.mp this.symm
      simp only [he, he2, if_false]
      cases hx : f.exec with
      | some e => rfl
      | none =>
        simp only
        rw [evalLoop_eq_findSome]
        intro id hid
        exact if_pos hid

end campaign

/-! ## The order of `ZREVRANGE` -/

namespace redis

theorem char_toNat_inj {a b : Char} (h : a.toNat = b.toNat) : a = b := by
  apply Char.ext
  apply UInt32.ext
  exact h

theorem bytesLE_total (a b : List Char) : bytesLE a b = true ∨ bytesLE b a = true := by
  induction a generalizing b with
  | nil => left; simp [bytesLE]
  | cons x xs ih =>
    cases b with
    | nil => right; simp [bytesLE]
    | cons y ys =>
      simp only [bytesLE]
      rcases Nat.lt_trichotomy x.toNat y.toNat with h | h | h
      · left; simp [h]
      · have h1 : ¬ x.toNat < y.toNat := by omega
        have h2 : ¬ y.toNat < x.toNat := by omega
        simp only [h1, h2, if_false]
        exact ih ys
      · right; simp [h]

theorem bytesLE_trans (a b c : List Char) (h1 : bytesLE a b = true) (h2 : bytesLE b c = true) :
    bytesLE a c = true := by
  induction a generalizing b c with
  | nil => simp [bytesLE]
  | cons x xs ih =>
    cases b with
    | nil => simp [bytesLE] at h1
    | cons y ys =>
      cases c with
      | nil => simp [bytesLE] at h2
      | cons z zs =>
        simp only [bytesLE] at h1 h2 ⊢
        by_cases hxy : x.toNat < y.toNat
        · by_cases hyz : y.toNat < z.toNat
          · have : x.toNat < z.toNat := by omega
            simp [this]
          · by_cases hzy : z.toNat < y.toNat
            · simp [hyz, hzy] at h2
            · have : x.toNat < z.toNat := by omega
              simp [this]
        · by_cases hyx : y.toNat < x.toNat
          · simp [hxy, hyx] at h1
          · simp only [hxy, hyx, if_false] at h1
            by_cases hyz : y.toNat < z.toNat
            · have : x.toNat < z.toNat := by omega
              simp [this]
            · by_cases hzy : z.toNat < y.toNat
              · simp [hyz, hzy] at h2
              · simp only [hyz, hzy, if_false] at h2
                have e1 : ¬ x.toNat < z.toNat := by omega
                have e2 : ¬ z.toNat < x.toNat := by omega
                simp only [e1, e2, if_false]
                exact ih ys zs h1 h2

theorem bytesLE_antisymm (a b : List Char) (h1 : bytesLE a b = true) (h2 : bytesLE b a = true) :
    a = b := by
  induction a generalizing b with
  | nil =>
    cases b with
    | nil => rfl
    | cons y ys => simp [bytesLE] at h2
  | cons x xs ih =>
    cases b with
    | nil => simp [bytesLE] at h1
    | cons y ys =>
      simp only [bytesLE] at h1 h2
      by_cases hxy : x.toNat < y.toNat
      · have : ¬ y.toNat < x.toNat := by omega
        simp [hxy, this] at h2
      · by_cases hyx : y.toNat < x.toNat
        · simp [hxy, hyx] at h1
        · simp only [hxy, hyx, if_false] at h1 h2
          have : x = y := char_toNat_inj (by omega)
          rw [this, ih ys h1 h2]

instance : IsTotal (String × Int) zrevLE where
  total a b := by
    unfold zrevLE
    rcases lt_trichotomy a.2 b.2 with h | h | h
    · right; left; exact h
    · rcases bytesLE_total a.1.data b.1.data with h' | h'
      · right; right; exact ⟨h, h'⟩
      · left; right; exact ⟨h.symm, h'⟩
    · left; left; exact h

instance : IsTrans (String × Int) zrevLE where
  trans a b c h1 h2 := by
    unfold zrevLE at *
    rcases h1 with h1 | ⟨e1, h1⟩ <;> rcases h2 with h2 | ⟨e2, h2⟩
    · left; omega
    · left; omega
    · left; omega
    · right; exact ⟨by omega, bytesLE_trans _ _ _ h2 h1⟩

instance : IsAntisymm (String × Int) zrevLE where
  antisymm a b h1 h2 := by
    unfold zrevLE at *
    rcases h1 with h1 | ⟨e1, h1⟩ <;> rcases h2 with h2 | ⟨e2, h2⟩
    · omega
    · omega
    · omega
    · have hd : a.1.data = b.1.data := bytesLE_antisymm _ _ h2 h1
      have h1' : a.1 = b.1 := by
        cases ha : a.1; cases hb : b.1
        simp only [ha, hb] at hd
        rw [hd]
      exact Prod.ext h1' e2

/-- An entry listed later by `ZREVRANGE` has no greater score. -/
theorem zrevLE_score {a b : String × Int} (h : zrevLE a b) : b.2 ≤ a.2 := by
  unfold zrevLE at h
  omega

theorem sorted_active (z : List (String × Int)) : (z.insertionSort zrevLE).Sorted zrevLE :=
  List.sorted_insertionSort zrevLE z

/-- Removing a member commutes with listing. -/
theorem insertionSort_ZRem (z : List (String × Int)) (m : String) :
    (ZRem z m).insertionSort zrevLE =
      (z.insertionSort zrevLE).filter (fun e => decide (e.1 ≠ m)) := by
  apply List.eq_of_perm_of_sorted (r := zrevLE)
  · unfold ZRem
    exact (List.perm_insertionSort zrevLE _).trans
      ((List.perm_insertionSort zrevLE z).symm.filter _)
  · exact List.sorted_insertionSort zrevLE _
  · exact (List.sorted_insertionSort zrevLE z).filter _

theorem ZRevRange_ZRem (z : List (String × Int)) (m : String) :
    ZRevRange (ZRem z m) = (ZRevRange z).filter (fun x => decide (x ≠ m)) := by
  unfold ZRevRange
  rw [insertionSort_ZRem, List.filter_map]
  rfl

end redis

/-! ## Writes to the cache, when they succeed -/

namespace redis

open campaign

theorem execErr_two (pf : PipeFaults) :
    execErr pf 2 = none ↔ pf 0 = none ∧ pf 1 = none := by
  unfold execErr
  simp [List.range_succ]

theorem execErr_three (pf : PipeFaults) :
    execErr pf 3 = none ↔ pf 0 = none ∧ pf 1 = none ∧ pf 2 = none := by
  unfold execErr
  simp [List.range_succ, and_assoc]

/-- The cache after a successful `SaveCampaign`. -/
theorem saved_eq {codec : JSONCodec} {s s1 : Cache} {c : Campaign} (h : saved codec s c s1) :
    s1 = { s with
      metaKeys := Function.update s.metaKeys c.ID (some (codec.Marshal c))
      metaTTL := Function.update s.metaTTL c.ID none
      active := if c.IsActive then ZAdd s.active (float64 c.Priority) (strconv.FormatInt c.ID)
                else ZRem s.active (strconv.FormatInt c.ID) } := by
  obtain ⟨pf, hpf⟩ := h
  have h1 := congrArg Prod.fst hpf
  have h2 := congrArg Prod.snd hpf
  simp only [SaveCampaign] at h1 h2
  obtain ⟨p0, p1⟩ := (execErr_two pf).mp h1
  rw [← h2]
  simp only [p0, p1]
  split <;> rfl

/-- The cache after a successful `RemoveCampaign`. -/
theorem removed_eq {s s1 : Cache} {id : Int} (h : removed s id s1) :
    s1 = { s with
      metaKeys := Function.update s.metaKeys id none
      metaTTL := Function.update s.metaTTL id none
      active := ZRem s.active (strconv.FormatInt id) } := by
  obtain ⟨pf, hpf⟩ := h
  have h1 := congrArg Prod.fst hpf
  have h2 := congrArg Prod.snd hpf
  simp only [RemoveCampaign] at h1 h2
  obtain ⟨p0, p1, p2⟩ := (execErr_three pf).mp h1
  rw [← h2]
  simp [p0, p1, p2]

theorem slotID_FormatInt (id : Int) (h : strconv.isInt64 id) :
    slotID (strconv.FormatInt id) = id := by
  simp [slotID, strconv.ParseInt_FormatInt id h]

theorem pick_ID {codec : JSONCodec} {s : Cache} {f : ReadFaults} {now u id : Int} {c : Campaign}
    (h : pick codec s f now u id = some c) : c.ID = id := by
  unfold pick at h
  cases hm : decodeMeta codec s f id with
  | none => simp [hm] at h
  | some camp =>
    simp only [hm] at h
    split at h
    · cases h
      unfold decodeMeta at hm
      split at hm
      · cases hm
      · split at hm
        · cases hm
        · split at hm
          · cases hm; rfl
          · cases hm
    · cases h

theorem pick_passes {codec : JSONCodec} {s : Cache} {f : ReadFaults} {now u id : Int}
    {c : Campaign} (h : pick codec s f now u id = some c) :
    decodeMeta codec s f id = some c ∧ passes s f now u id c := by
  unfold pick at h
  cases hm : decodeMeta codec s f id with
  | none => simp [hm] at h
  | some camp =>
    simp only [hm] at h
    split at h
    · cases h; exact ⟨rfl, by assumption⟩
    · cases h

end redis

namespace campaign

open redis

/-- A returned campaign is the first entry of the listing whose slot passes. -/
theorem GetPopup_some {codec : JSONCodec} {s : Cache} {f : ReadFaults} {now u : Int}
    {c : Campaign} (h : GetPopup (repository codec s f) now u = .ok (some c)) :
    ∃ l₁ e l₂, s.active.insertionSort zrevLE = l₁ ++ e :: l₂ ∧
      pick codec s f now u (slotID e.1) = some c ∧
      ∀ x ∈ l₁, pick codec s f now u (slotID x.1) = none := by
  rw [GetPopup_redis] at h
  cases hz : f.zrevrange with
  | some e => simp [hz] at h
  | none =>
    simp only [hz] at h
    split at h
    · cases h
    · cases hx : f.exec with
      | some e => simp [hx] at h
      | none =>
        simp only [hx, Except.ok.injEq, ZRevRange, List.findSome?_map] at h
        obtain ⟨l₁, e, l₂, h1, h2, h3⟩ := List.findSome?_eq_some_iff.mp h
        exact ⟨l₁, e, l₂, h1, h2, h3⟩

end campaign

/-! ## C1: priority ordering -/

namespace campaign

open redis strconv

theorem GetPopup_score_max {codec : JSONCodec} {s : Cache} {f : ReadFaults} {now u : Int}
    {c : Campaign} (hwf : wellFormedIndex s)
    (h : GetPopup (repository codec s f) now u = .ok (some c)) :
    ∃ sc, (FormatInt c.ID, sc) ∈ s.active ∧
      ∀ e ∈ s.active, ∀ id, e.1 = FormatInt id → eligible codec s f now u id → e.2 ≤ sc := by
  obtain ⟨l₁, e, l₂, hsort, hpick, hnone⟩ := GetPopup_some h
  have hmem : ∀ x, x ∈ s.active ↔ x ∈ l₁ ++ e :: l₂ := by
    intro x
    rw [← hsort]
    exact (List.perm_insertionSort zrevLE s.active).mem_iff.symm
  have he : e ∈ s.active := (hmem e).mpr (by simp)
  obtain ⟨id0, hid0, hfmt0⟩ := hwf e he
  have hc : c.ID = id0 := by
    have := pick_ID hpick
    rw [hfmt0, slotID_FormatInt id0 hid0] at this
    exact this
  have hsorted : (l₁ ++ e :: l₂).Sorted zrevLE := hsort ▸ sorted_active s.active
  refine ⟨e.2, ?_, ?_⟩
  · rw [hc, ← hfmt0]
    exact he
  · intro e' he' id hfmt helig
    rcases List.mem_append.mp ((hmem e').mp he') with h1 | h2
    · exfalso
      obtain ⟨id', hid', hfmt'⟩ := hwf e' he'
      have hnn := hnone e' h1
      rw [hfmt', slotID_FormatInt id' hid'] at hnn
      have : id = id' := FormatInt_injective (hfmt.symm.trans hfmt')
      unfold eligible at helig
      rw [this, hnn] at helig
      exact absurd helig (by simp)
    · rcases List.mem_cons.mp h2 with h3 | h3
      · rw [h3]
      · have hs2 : (e :: l₂).Sorted zrevLE := (List.pairwise_append.mp hsorted).2.1
        exact zrevLE_score (List.rel_of_sorted_cons hs2 e' h3)

end campaign

namespace campaign

open redis strconv

theorem float64_ten : float64 10 = 10 := by decide

theorem float64_five : float64 5 = 5 := by decide

/-- After A (priority 10) and B (priority 5) are saved as active into a cache with an empty
index, in either order, the listing is A, B and A's metadata is A's snapshot. -/
theorem saved_two {codec : JSONCodec} {s s' : Cache} {A B : Campaign}
    (hs : s.active = []) (hne : A.ID ≠ B.ID)
    (hA : A.IsActive = true) (hB : B.IsActive = true)
    (hpA : A.Priority = 10) (hpB : B.Priority = 5)
    (h : (∃ s1, saved codec s A s1 ∧ saved codec s1 B s') ∨
         (∃ s1, saved codec s B s1 ∧ saved codec s1 A s')) :
    s'.active.insertionSort zrevLE = [(FormatInt A.ID, 10), (FormatInt B.ID, 5)] ∧
      s'.metaKeys A.ID = some (codec.Marshal A) := by
  have hf : FormatInt A.ID ≠ FormatInt B.ID := fun h => hne (FormatInt_injective h)
  have hz1 : ¬ zrevLE (FormatInt B.ID, (5 : Int)) (FormatInt A.ID, (10 : Int)) := by
    unfold zrevLE; simp
  have hz2 : zrevLE (FormatInt A.ID, (10 : Int)) (FormatInt B.ID, (5 : Int)) := by
    unfold zrevLE; simp
  rcases h with ⟨s1, h1, h2⟩ | ⟨s1, h1, h2⟩
  · have e1 := saved_eq h1
    have e2 := saved_eq h2
    subst e1
    subst e2
    simp only [hA, hB, if_true, hs, hpA, hpB, float64_ten, float64_five, ZAdd]
    constructor
    · simp [List.insertionSort, List.orderedInsert, hf, hz1]
    · simp [Function.update, hne, hne.symm]
  · have e1 := saved_eq h1
    have e2 := saved_eq h2
    subst e1
    subst e2
    simp only [hA, hB, if_true, hs, hpA, hpB, float64_ten, float64_five, ZAdd]
    constructor
    · simp [List.insertionSort, List.orderedInsert, hf.symm, hz2]
    · simp [Function.update]

/-- C1. Priority ordering. (1) Whenever the members of the active index are campaign ids as
`SaveCampaign` writes them and `GetPopup` returns campaign `c`, then `c` is in the index
with a score `sc`, and every campaign of the index that has metadata and passes the time,
target and frequency checks for the user has a score no greater than `sc`. (2) When A
(priority 10) and B (priority 5) have both been saved as active, in either order, into a
cache with an empty index and both are eligible for the user, `GetPopup` returns A, and
not B. -/
theorem priority_ordering :
    (∀ (codec : JSONCodec) (s : Cache) (f : ReadFaults) (now u : Int) (c : Campaign),
      wellFormedIndex s →
      GetPopup (repository codec s f) now u = .ok (some c) →
      ∃ sc, (FormatInt c.ID, sc) ∈ s.active ∧
        ∀ e ∈ s.active, ∀ id, e.1 = FormatInt id → eligible codec s f now u id → e.2 ≤ sc) ∧
    (∀ (codec : JSONCodec) (s s' : Cache) (f : ReadFaults) (now u : Int) (A B : Campaign),
      s.active = [] → isInt64 A.ID → isInt64 B.ID → A.ID ≠ B.ID →
      A.IsActive = true → B.IsActive = true → A.Priority = 10 → B.Priority = 5 →
      ((∃ s1, saved codec s A s1 ∧ saved codec s1 B s') ∨
       (∃ s1, saved codec s B s1 ∧ saved codec s1 A s')) →
      codec.Unmarshal (codec.Marshal A) = some A →
      f.zrevrange = none → f.exec = none →
      eligible codec s' f now u A.ID → eligible codec s' f now u B.ID →
      GetPopup (repository codec s' f) now u = .ok (some A) ∧
        GetPopup (repository codec s' f) now u ≠ .ok (some B)) := by
  refine ⟨fun codec s f now u c hwf h => GetPopup_score_max hwf h, ?_⟩
  intro codec s s' f now u A B hs hiA hiB hne hA hB hpA hpB hsv hrt hz hx heA _
  obtain ⟨hsort, hmeta⟩ := saved_two hs hne hA hB hpA hpB hsv
  have hact : s'.active ≠ [] := by
    intro h0
    rw [h0] at hsort
    simp at hsort
  have hpickA : pick codec s' f now u A.ID = some A := by
    unfold eligible at heA
    obtain ⟨c, hc⟩ := Option.isSome_iff_exists.mp heA
    rw [hc]
    have hd := (pick_passes hc).1
    unfold decodeMeta at hd
    rw [hmeta] at hd
    simp only [hrt] at hd
    split at hd
    · cases hd
    · cases hd; rfl
  have hres : GetPopup (repository codec s' f) now u = .ok (some A) := by
    rw [GetPopup_redis]
    simp only [hz, hx, hact, if_false, ZRevRange, hsort]
    simp [slotID_FormatInt _ hiA, hpickA]
  refine ⟨hres, ?_⟩
  rw [hres]
  intro h
  injection h with h
  injection h with h
  exact hne (congrArg Campaign.ID h)

/-- C1, at the fixtures: A and B saved into the empty cache, user 7 at instant 50. -/
theorem priority_ordering_witness :
    (∃ sc, (FormatInt fixtures.campA.ID, sc) ∈ fixtures.cacheAB.active ∧ (5 : Int) ≤ sc) ∧
    (GetPopup (repository fixtures.codec fixtures.cacheAB ReadFaults.none) 50 7
        = .ok (some fixtures.campA) ∧
      GetPopup (repository fixtures.codec fixtures.cacheAB ReadFaults.none) 50 7
        ≠ .ok (some fixtures.campB)) := by
  have hwf : wellFormedIndex fixtures.cacheAB := by
    intro e he
    have : e = ("2", 5) ∨ e = ("1", 10) := by
      have h2 : fixtures.cacheAB.active = [("2", 5), ("1", 10)] := by decide
      rw [h2] at he
      simpa using he
    rcases this with h | h
    · exact ⟨2, by decide, by rw [h]; decide⟩
    · exact ⟨1, by decide, by rw [h]; decide⟩
  obtain ⟨sc, h1, h2⟩ := priority_ordering.1 fixtures.codec fixtures.cacheAB ReadFaults.none
    50 7 fixtures.campA hwf (by decide)
  exact ⟨⟨sc, h1, h2 ("2", 5) (by decide) 2 (by decide) (by decide)⟩,
    priority_ordering.2 fixtures.codec Cache.empty fixtures.cacheAB ReadFaults.none 50 7
      fixtures.campA fixtures.campB rfl (by decide) (by decide) (by decide) rfl rfl rfl rfl
      (Or.inl ⟨fixtures.cacheA, ⟨PipeFaults.none, rfl⟩, ⟨PipeFaults.none, rfl⟩⟩)
      (by decide) rfl rfl (by decide) (by decide)⟩

end campaign

/-! ## C2: time window -/

namespace campaign

open redis strconv

theorem GetPopup_passes {codec : JSONCodec} {s : Cache} {f : ReadFaults} {now u : Int}
    {c : Campaign} (h : GetPopup (repository codec s f) now u = .ok (some c)) :
    decodeMeta codec s f c.ID = some c ∧ passes s f now u c.ID c := by
  obtain ⟨l₁, e, l₂, _, hpick, _⟩ := GetPopup_some h
  have hid := pick_ID hpick
  rw [← hid] at hpick
  exact pick_passes hpick

/-- C2, as stated, fails: campaign A ends at instant 100 and is returned at instant 100. -/
theorem time_window_end_not_exclusive :
    GetPopup (repository fixtures.codec fixtures.cacheA ReadFaults.none) 100 7
        = .ok (some fixtures.campA) ∧
      (100 : Int) ≥ fixtures.campA.EndTime := by
  decide

/-- C2, amended. Time window `[start, end]`: `GetPopup` never returns a campaign with
`now < start` or with `now > end`; the end boundary is inclusive, a campaign whose end time
equals `now` exactly can be returned. -/
theorem time_window_closed :
    (∀ (codec : JSONCodec) (s : Cache) (f : ReadFaults) (now u : Int) (c : Campaign),
      GetPopup (repository codec s f) now u = .ok (some c) →
      ¬ (now < c.StartTime ∨ now > c.EndTime)) ∧
    (∃ (codec : JSONCodec) (s : Cache) (f : ReadFaults) (now u : Int) (c : Campaign),
      GetPopup (repository codec s f) now u = .ok (some c) ∧ c.EndTime = now) := by
  constructor
  · intro codec s f now u c h
    have hp := (GetPopup_passes h).2
    unfold passes at hp
    omega
  · exact ⟨fixtures.codec, fixtures.cacheA, ReadFaults.none, 100, 7, fixtures.campA,
      by decide, rfl⟩

/-- C2 amended, at the fixtures: A is returned at instant 50, inside its window. -/
theorem time_window_closed_witness :
    ¬ ((50 : Int) < fixtures.campA.StartTime ∨ (50 : Int) > fixtures.campA.EndTime) :=
  time_window_closed.1 fixtures.codec fixtures.cacheA ReadFaults.none 50 7 fixtures.campA
    (by decide)

/-! ## C3: frequency cap -/

theorem registerTimes_count {s s' : Cache} {expire : Nat → Option String} {u cid : Int}
    (h0 : s.impressions u cid = none) (n : Nat)
    (h : registerTimes s expire u cid n = some s') :
    (s'.impressions u cid).getD 0 = (n : Int) := by
  induction n generalizing s' with
  | zero =>
    simp only [registerTimes, Option.some.injEq] at h
    subst h
    simp [h0]
  | succ k ih =>
    simp only [registerTimes] at h
    cases hk : registerTimes s expire u cid k with
    | none => simp [hk] at h
    | some s1 =>
      have hc := ih hk
      simp only [hk, RegisterImpression, IncrementImpression, hc] at h
      split at h
      · rename_i e s2 heq
        split at heq
        · cases heq
        · cases hex : expire k <;> simp only [hex] at heq <;> cases heq <;> cases h <;> simp
      · cases h

/-- From no counter, `n` calls succeed as long as the count stays an `int64`. -/
theorem registerTimes_succeeds (s : Cache) (expire : Nat → Option String) (u cid : Int)
    (h0 : s.impressions u cid = none) (n : Nat) (hn : (n : Int) < 2 ^ 63) :
    ∃ s', registerTimes s expire u cid n = some s' := by
  induction n with
  | zero => exact ⟨s, rfl⟩
  | succ k ih =>
    obtain ⟨s1, hk⟩ := ih (by push_cast at hn ⊢; omega)
    have hc := registerTimes_count h0 k hk
    have hlt : ¬ ((k : Int) + 1 ≥ 2 ^ 63) := by push_cast at hn; omega
    simp only [registerTimes, hk, RegisterImpression, IncrementImpression, hc, hlt, if_false]
    cases hex : expire k <;> exact ⟨_, rfl⟩

/-- C3. Frequency cap. (1) `GetPopup` never returns a campaign whose stored seen-count for
the user is at or above its `max_frequency`. (2) From a cache where user `u` has no
counter for campaign `cid`, after exactly `n` successful `RegisterImpression(u, cid)`
calls the counter reads `n`, and `GetPopup(u)` does not return a campaign with id `cid`
and `max_frequency = n`. (3) Such `n` calls do succeed while `n` is an `int64`. -/
theorem frequency_cap :
    (∀ (codec : JSONCodec) (s : Cache) (f : ReadFaults) (now u : Int) (c : Campaign),
      GetPopup (repository codec s f) now u = .ok (some c) →
      (s.impressions u c.ID).getD 0 < c.MaxFrequency) ∧
    (∀ (codec : JSONCodec) (s s' : Cache) (f : ReadFaults) (now u cid : Int) (n : Nat)
      (expire : Nat → Option String),
      s.impressions u cid = none →
      registerTimes s expire u cid n = some s' →
      (s'.impressions u cid).getD 0 = (n : Int) ∧
      ∀ c : Campaign, c.ID = cid → c.MaxFrequency = (n : Int) →
        GetPopup (repository codec s' f) now u ≠ .ok (some c)) ∧
    (∀ (s : Cache) (u cid : Int) (n : Nat) (expire : Nat → Option String),
      s.impressions u cid = none → (n : Int) < 2 ^ 63 →
      ∃ s', registerTimes s expire u cid n = some s') := by
  have h1 : ∀ (codec : JSONCodec) (s : Cache) (f : ReadFaults) (now u : Int) (c : Campaign),
      GetPopup (repository codec s f) now u = .ok (some c) →
      (s.impressions u c.ID).getD 0 < c.MaxFrequency := by
    intro codec s f now u c h
    exact (GetPopup_passes h).2.2.2.2.2
  refine ⟨h1, ?_, ?_⟩
  · intro codec s s' f now u cid n expire h0 hreg
    have hc := registerTimes_count h0 n hreg
    refine ⟨hc, ?_⟩
    intro c hid hmax hget
    have := h1 codec s' f now u c hget
    rw [hid, hc, hmax] at this
    exact lt_irrefl _ this
  · intro s u cid n expire h0 hn
    exact registerTimes_succeeds s expire u cid h0 n hn

/-- C3, at the fixtures: A has `max_frequency` 3; after three impressions of user 7 the
counter reads 3 and A is not returned. -/
theorem frequency_cap_witness :
    (fixtures.cacheA.impressions 7 1).getD 0 < fixtures.campA.MaxFrequency ∧
    (((fixtures.cacheA3.impressions 7 1).getD 0 = ((3 : Nat) : Int)) ∧
      GetPopup (repository fixtures.codec fixtures.cacheA3 ReadFaults.none) 50 7
        ≠ .ok (some fixtures.campA)) ∧
    (∃ s', registerTimes fixtures.cacheA (fun _ => none) 7 1 3 = some s') := by
  refine ⟨frequency_cap.1 fixtures.codec fixtures.cacheA ReadFaults.none 50 7 fixtures.campA
      (by decide), ?_,
    frequency_cap.2.2 fixtures.cacheA 7 1 3 (fun _ => none) rfl (by decide)⟩
  have h := frequency_cap.2.1 fixtures.codec fixtures.cacheA fixtures.cacheA3 ReadFaults.none
    50 7 1 3 (fun _ => none) rfl rfl
  exact ⟨h.1, h.2 fixtures.campA rfl rfl⟩

end campaign

/-! ## C4: segment targeting -/

namespace campaign

open redis strconv

/-- The decision does not depend on the membership bits, nor on the outcome of reading
them, of campaigns whose metadata is not of type `SEGMENT`. -/
theorem pick_congr_users (codec : JSONCodec) (s : Cache) (f : ReadFaults) (now u : Int)
    (users' : Int → Int → Bool) (getbit' : Int → Int → Option String)
    (hagree : ∀ id c, decodeMeta codec s f id = some c → c.TargetType = TargetTypeSegment →
      users' id u = s.users id u ∧ getbit' id u = f.getbit id u) (id : Int) :
    pick codec { s with users := users' } { f with getbit := getbit' } now u id =
      pick codec s f now u id := by
  have hd : decodeMeta codec { s with users := users' } { f with getbit := getbit' } id =
      decodeMeta codec s f id := rfl
  unfold pick
  rw [hd]
  cases hm : decodeMeta codec s f id with
  | none => rfl
  | some c =>
    simp only
    have : passes { s with users := users' } { f with getbit := getbit' } now u id c ↔
        passes s f now u id c := by
      unfold passes
      by_cases hseg : c.TargetType = TargetTypeSegment
      · obtain ⟨h1, h2⟩ := hagree id c hm hseg
        simp only [h1, h2]
      · simp only [hseg, false_implies]
    simp only [this]

/-- C4. Segment targeting. (1) A campaign of target type `SEGMENT` whose membership test
for the user is not positive (bit 0, or the test fails) is never returned. (2) When the
index lists `id` after candidates none of which passes all checks, and the campaign fetched
for `id` is of type `SEGMENT` with a positive membership test, inside its time window and
with the user's seen-count read and below the cap, `GetPopup` returns it. (3) The
decision is independent of the membership bit, and of the outcome of reading it, of every
campaign that is not of type `SEGMENT` (so of every campaign of type `ALL`): no membership
test is made for it. -/
theorem segment_targeting :
    (∀ (codec : JSONCodec) (s : Cache) (f : ReadFaults) (now u : Int) (c : Campaign),
      c.TargetType = TargetTypeSegment →
      IsUserTargeted s f c.ID u ≠ .ok true →
      GetPopup (repository codec s f) now u ≠ .ok (some c)) ∧
    (∀ (codec : JSONCodec) (s : Cache) (f : ReadFaults) (now u id : Int) (c : Campaign)
      (pre post : List Int),
      GetActiveCampaignIDs s f = .ok (pre ++ id :: post) →
      f.exec = none →
      (∀ j ∈ pre, ¬ eligible codec s f now u j) →
      decodeMeta codec s f id = some c →
      c.TargetType = TargetTypeSegment →
      IsUserTargeted s f id u = .ok true →
      c.StartTime ≤ now → now ≤ c.EndTime →
      f.hmget u [id] = none → (s.impressions u id).getD 0 < c.MaxFrequency →
      GetPopup (repository codec s f) now u = .ok (some c)) ∧
    (∀ (codec : JSONCodec) (s : Cache) (f : ReadFaults) (now u : Int)
      (users' : Int → Int → Bool) (getbit' : Int → Int → Option String),
      (∀ id c, decodeMeta codec s f id = some c → c.TargetType = TargetTypeSegment →
        users' id u = s.users id u ∧ getbit' id u = f.getbit id u) →
      GetPopup (repository codec { s with users := users' } { f with getbit := getbit' }) now u
        = GetPopup (repository codec s f) now u) := by
  refine ⟨?_, ?_, ?_⟩
  · intro codec s f now u c hseg hneg hget
    have hp := (GetPopup_passes hget).2
    obtain ⟨hg, hb⟩ := hp.2.2.1 hseg
    apply hneg
    simp [IsUserTargeted, hg, hb]
  · intro codec s f now u id c pre post hids hx hpre hm hseg htest ht1 ht2 hh hcount
    have hz : f.zrevrange = none := by
      cases hz : f.zrevrange with
      | none => rfl
      | some e => simp [GetActiveCampaignIDs, hz] at hids
    have hlist : (ZRevRange s.active).map slotID = pre ++ id :: post := by
      simpa [GetActiveCampaignIDs, hz] using hids
    have hne : s.active ≠ [] := by
      intro h0
      rw [h0] at hlist
      simp [ZRevRange] at hlist
    have hbit : f.getbit id u = none ∧ s.users id u = true := by
      unfold IsUserTargeted at htest
      cases hg : f.getbit id u with
      | some e => simp [hg] at htest
      | none => simpa [hg] using htest
    have hpick : pick codec s f now u id = some c := by
      unfold pick
      rw [hm]
      have : passes s f now u id c := ⟨ht1, ht2, fun _ => hbit, hh, hcount⟩
      simp [this]
    rw [GetPopup_redis]
    simp only [hz, hx, hne, if_false, hlist, List.findSome?_append, List.findSome?_cons, hpick]
    have : pre.findSome? (pick codec s f now u) = none := by
      rw [List.findSome?_eq_none_iff]
      intro j hj
      have := hpre j hj
      unfold eligible at this
      simpa using this
    rw [this]
    rfl
  · intro codec s f now u users' getbit' hagree
    rw [GetPopup_redis, GetPopup_redis]
    have : pick codec { s with users := users' } { f with getbit := getbit' } now u =
        pick codec s f now u := funext (pick_congr_users codec s f now u users' getbit' hagree)
    simp only [this]

end campaign

namespace campaign

open redis strconv

/-- C4, at the fixtures: S is returned to user 7 (in the segment) after A, whose cap is
reached, and not to user 8; bits and read failures of A, of type `ALL`, change nothing. -/
theorem segment_targeting_witness :
    GetPopup (repository fixtures.codec fixtures.cacheS ReadFaults.none) 50 8
        ≠ .ok (some fixtures.campS) ∧
    GetPopup (repository fixtures.codec fixtures.cacheS ReadFaults.none) 50 7
        = .ok (some fixtures.campS) ∧
    GetPopup (repository fixtures.codec
        { fixtures.cacheS with users := Function.update fixtures.cacheS.users 1 (fun _ => true) }
        { ReadFaults.none with
            getbit := Function.update ReadFaults.none.getbit 1 (fun _ => some "down") }) 50 7
      = GetPopup (repository fixtures.codec fixtures.cacheS ReadFaults.none) 50 7 := by
  refine ⟨segment_targeting.1 fixtures.codec fixtures.cacheS ReadFaults.none 50 8
      fixtures.campS rfl (by decide),
    segment_targeting.2.1 fixtures.codec fixtures.cacheS ReadFaults.none 50 7 3
      fixtures.campS [1] [2] (by decide) rfl (by decide) (by decide) rfl (by decide)
      (by decide) (by decide) rfl (by decide),
    segment_targeting.2.2 fixtures.codec fixtures.cacheS ReadFaults.none 50 7 _ _ ?_⟩
  intro id c hm hseg
  by_cases h : id = 1
  · subst h
    have hA : decodeMeta fixtures.codec fixtures.cacheS ReadFaults.none 1
        = some fixtures.campA := by decide
    rw [hA] at hm
    cases hm
    exact absurd hseg (by decide)
  · simp [Function.update, h]

end campaign

/-! ## C5: only active campaigns are in the index -/

namespace redis

open campaign strconv

theorem mem_ZAdd (z : List (String × Int)) (sc : Int) (m0 m : String) :
    m ∈ (ZAdd z sc m0).map Prod.fst ↔ m = m0 ∨ (m ≠ m0 ∧ m ∈ z.map Prod.fst) := by
  unfold ZAdd
  simp only [List.map_cons, List.mem_cons, List.mem_map, List.mem_filter, decide_eq_true_eq]
  constructor
  · rintro (h | ⟨e, ⟨he, hne⟩, rfl⟩)
    · exact Or.inl h
    · exact Or.inr ⟨hne, e, he, rfl⟩
  · rintro (h | ⟨hne, e, he, rfl⟩)
    · exact Or.inl h
    · exact Or.inr ⟨e, ⟨he, hne⟩, rfl⟩

theorem mem_ZRem (z : List (String × Int)) (m0 m : String) :
    m ∈ (ZRem z m0).map Prod.fst ↔ m ≠ m0 ∧ m ∈ z.map Prod.fst := by
  unfold ZRem
  simp only [List.mem_map, List.mem_filter, decide_eq_true_eq]
  constructor
  · rintro ⟨e, ⟨he, hne⟩, rfl⟩
    exact ⟨hne, e, he, rfl⟩
  · rintro ⟨hne, e, he, rfl⟩
    exact ⟨e, ⟨he, hne⟩, rfl⟩

/-- The members of a reachable index are the ids whose most recent operation is an
upsert with `active = true`. -/
theorem reachable_members {codec : JSONCodec} {hist : List Op} {s : Cache}
    (h : Reachable codec hist s) (m : String) :
    m ∈ s.active.map Prod.fst ↔ ∃ id, m = FormatInt id ∧ latestActive id hist = true := by
  induction h generalizing m with
  | empty => simp [Cache.empty, latestActive]
  | upsert c _ hsv ih =>
    rw [saved_eq hsv]
    simp only [latestActive]
    by_cases hact : c.IsActive = true
    · simp only [hact, if_true, mem_ZAdd, ih]
      constructor
      · rintro (h1 | ⟨hne, id, hid, hl⟩)
        · exact ⟨c.ID, h1, by simp⟩
        · refine ⟨id, hid, ?_⟩
          have : c.ID ≠ id := by rintro rfl; exact hne hid
          simp [this, hl]
      · rintro ⟨id, hid, hl⟩
        by_cases hc : c.ID = id
        · left; rw [hid, hc]
        · right
          simp only [hc, if_false] at hl
          exact ⟨fun h0 => hc (FormatInt_injective (h0.symm.trans hid)), id, hid, hl⟩
    · have hf : c.IsActive = false := by simpa using hact
      simp only [hf, Bool.false_eq_true, if_false, mem_ZRem, ih]
      constructor
      · rintro ⟨hne, id, hid, hl⟩
        refine ⟨id, hid, ?_⟩
        have : c.ID ≠ id := by rintro rfl; exact hne hid
        simp [this, hl]
      · rintro ⟨id, hid, hl⟩
        by_cases hc : c.ID = id
        · simp [hc, hf] at hl
        · simp only [hc, if_false] at hl
          refine ⟨?_, id, hid, hl⟩
          intro h0
          exact hc (FormatInt_injective (h0.symm.trans hid))
  | remove i _ hrm ih =>
    rw [removed_eq hrm]
    simp only [latestActive, mem_ZRem, ih]
    constructor
    · rintro ⟨hne, id, hid, hl⟩
      refine ⟨id, hid, ?_⟩
      have : i ≠ id := by rintro rfl; exact hne hid
      simp [this, hl]
    · rintro ⟨id, hid, hl⟩
      by_cases hc : i = id
      · simp [hc] at hl
      · simp only [hc, if_false] at hl
        refine ⟨?_, id, hid, hl⟩
        intro h0
        exact hc (FormatInt_injective (h0.symm.trans hid))

/-- An id whose most recent operation is an active upsert occurs in the history. -/
theorem latestActive_mem {id : Int} {hist : List Op} (h : latestActive id hist = true) :
    ∃ op ∈ hist, op.id = id := by
  induction hist with
  | nil => simp [latestActive] at h
  | cons op rest ih =>
    cases op with
    | upsert c =>
      simp only [latestActive] at h
      by_cases hc : c.ID = id
      · exact ⟨.upsert c, List.mem_cons_self _ _, hc⟩
      · simp only [hc, if_false] at h
        obtain ⟨op, hop, hid⟩ := ih h
        exact ⟨op, List.mem_cons_of_mem _ hop, hid⟩
    | remove i =>
      simp only [latestActive] at h
      by_cases hc : i = id
      · simp [hc] at h
      · simp only [hc, if_false] at h
        obtain ⟨op, hop, hid⟩ := ih h
        exact ⟨op, List.mem_cons_of_mem _ hop, hid⟩

end redis

namespace campaign

open redis strconv

/-- C5. Active-only invariant. In every cache reached from the empty cache by successful
`SaveCampaign` and `RemoveCampaign` calls, (1) a campaign id is a member of the active
index if and only if the most recent upsert for that id had `active = true` and the id has
not been removed since; (2) hence (ids being `int64`) `GetPopup` returns, for any user,
instant and read outcomes, only a campaign for which that holds: never one whose latest
saved snapshot has `active = false`, nor one removed since. -/
theorem active_only_invariant (codec : JSONCodec) (hist : List Op) (s : Cache)
    (hreach : Reachable codec hist s) :
    (∀ id : Int, FormatInt id ∈ s.active.map Prod.fst ↔ latestActive id hist = true) ∧
    ((∀ op ∈ hist, isInt64 op.id) →
      ∀ (f : ReadFaults) (now u : Int) (c : Campaign),
        GetPopup (repository codec s f) now u = .ok (some c) →
        latestActive c.ID hist = true) := by
  have h1 : ∀ id : Int, FormatInt id ∈ s.active.map Prod.fst ↔ latestActive id hist = true := by
    intro id
    rw [reachable_members hreach]
    constructor
    · rintro ⟨id', hid, hl⟩
      rw [FormatInt_injective hid]
      exact hl
    · intro hl
      exact ⟨id, rfl, hl⟩
  refine ⟨h1, ?_⟩
  intro hint f now u c hget
  have hwf : wellFormedIndex s := by
    intro e he
    have hm : e.1 ∈ s.active.map Prod.fst := List.mem_map_of_mem _ he
    obtain ⟨id, hid, hl⟩ := (reachable_members hreach e.1).mp hm
    obtain ⟨op, hop, hopid⟩ := latestActive_mem hl
    exact ⟨id, hopid ▸ hint op hop, hid⟩
  obtain ⟨sc, hsc, _⟩ := GetPopup_score_max hwf hget
  exact (h1 c.ID).mp (List.mem_map_of_mem Prod.fst hsc)

/-- C5, at the fixtures: after A, B and then B deactivated are saved, B is not in the index
and the campaign returned, A, is one whose latest snapshot is active. -/
theorem active_only_invariant_witness :
    (FormatInt 2 ∈ fixtures.cacheBoff.active.map Prod.fst ↔
      latestActive 2 fixtures.histBoff = true) ∧
    latestActive fixtures.campA.ID fixtures.histBoff = true := by
  have hreach : Reachable fixtures.codec fixtures.histBoff fixtures.cacheBoff :=
    Reachable.upsert fixtures.campBoff
      (Reachable.upsert fixtures.campB
        (Reachable.upsert fixtures.campA Reachable.empty ⟨PipeFaults.none, rfl⟩)
        ⟨PipeFaults.none, rfl⟩)
      ⟨PipeFaults.none, rfl⟩
  have h := active_only_invariant fixtures.codec fixtures.histBoff fixtures.cacheBoff hreach
  exact ⟨h.1 2, h.2 (by decide) ReadFaults.none 50 7 fixtures.campA (by decide)⟩

end campaign

/-! ## C6: which failures the decision propagates -/

namespace campaign

open redis strconv

/-- C6, as stated, fails: with A in the index, the index read succeeds, the `Exec` of
the metadata batch fails, and `GetPopup` returns an error. -/
theorem metadata_failure_is_propagated :
    GetActiveCampaignIDs fixtures.cacheA fixtures.execDown = .ok [1] ∧
    GetPopup (repository fixtures.codec fixtures.cacheA fixtures.execDown) 50 7
      = .error "failed to exec pipeline metadata: connection refused" := by
  decide

/-- C6, amended. `GetPopup` returns an error if and only if the read of the active index
fails, or that read yields a non-empty list and the batched metadata fetch fails. Every
other outcome (empty index, no candidate passing, missing or undecodable metadata of a
candidate, a failed targeting test or counter read) is a successful result. -/
theorem error_propagation (codec : JSONCodec) (s : Cache) (f : ReadFaults) (now u : Int) :
    (∃ err, GetPopup (repository codec s f) now u = .error err) ↔
      ((∃ err, GetActiveCampaignIDs s f = .error err) ∨
       (∃ ids err, GetActiveCampaignIDs s f = .ok ids ∧ ids ≠ [] ∧
          GetCampaignsMetadata codec s f ids = .error err)) := by
  have hr0 : (repository codec s f).GetActiveCampaignIDs = GetActiveCampaignIDs s f := rfl
  have hr1 : (repository codec s f).GetCampaignsMetadata = GetCampaignsMetadata codec s f := rfl
  simp only [GetPopup, hr0, hr1]
  cases hids : GetActiveCampaignIDs s f with
  | error e => simp
  | ok ids =>
    simp only [List.length_eq_zero]
    by_cases he : ids = []
    · simp [he]
    · simp only [he, if_false]
      cases hmeta : GetCampaignsMetadata codec s f ids with
      | error e => simp [he, hmeta]
      | ok campMap => simp [hmeta]

end campaign

/-! ## C7, C8: a candidate that is skipped could as well be absent -/

namespace campaign

open redis strconv

theorem findSome_filter_skip {α β : Type} (g : α → Option β) (p : α → Bool) (l : List α)
    (h : ∀ x ∈ l, p x = false → g x = none) :
    (l.filter p).findSome? g = l.findSome? g := by
  induction l with
  | nil => rfl
  | cons a rest ih =>
    have ih1 := ih (fun x hx => h x (List.mem_cons_of_mem _ hx))
    by_cases hp : p a = true
    · simp only [List.filter_cons, hp, if_true, List.findSome?_cons, ih1]
    · have hp' : p a = false := by simpa using hp
      have hg := h a (List.mem_cons_self _ _) hp'
      simp only [List.filter_cons, hp', Bool.false_eq_true, if_false, List.findSome?_cons, hg, ih1]

/-- A member whose slot does not pass can be removed from the index without changing the
decision, as long as the metadata batch does not fail as a whole. -/
theorem GetPopup_ZRem_skip (codec : JSONCodec) (s : Cache) (f : ReadFaults) (now u : Int)
    (m : String) (hx : f.exec = none) (hskip : pick codec s f now u (slotID m) = none) :
    GetPopup (repository codec s f) now u =
      GetPopup (repository codec { s with active := ZRem s.active m } f) now u := by
  have hpick : pick codec { s with active := ZRem s.active m } f now u = pick codec s f now u :=
    rfl
  rw [GetPopup_redis, GetPopup_redis, hpick]
  cases hz : f.zrevrange with
  | some e => rfl
  | none =>
    simp only [hx, ZRevRange_ZRem]
    have hfs : ((List.filter (fun x => decide (x ≠ m)) (ZRevRange s.active)).map slotID).findSome?
          (pick codec s f now u) =
        ((ZRevRange s.active).map slotID).findSome? (pick codec s f now u) := by
      rw [List.findSome?_map, List.findSome?_map]
      apply findSome_filter_skip
      intro x _ hxm
      have : x = m := by simpa using hxm
      rw [Function.comp_apply, this, hskip]
    rw [hfs]
    by_cases h1 : s.active = []
    · simp [h1, ZRem]
    · simp only [h1, if_false]
      by_cases h2 : ZRem s.active m = []
      · simp only [h2, if_true]
        rw [← hfs]
        have : ZRevRange (ZRem s.active m) = [] := by simp [h2, ZRevRange]
        rw [← ZRevRange_ZRem, this]
        rfl
      · simp only [h2, if_false]

/-- With the index read and the metadata batch succeeding, the decision is a result. -/
theorem GetPopup_ok (codec : JSONCodec) (s : Cache) (f : ReadFaults) (now u : Int)
    (hz : f.zrevrange = none) (hx : f.exec = none) :
    ∃ r, GetPopup (repository codec s f) now u = .ok r := by
  rw [GetPopup_redis]
  simp only [hz, hx]
  split
  · exact ⟨_, rfl⟩
  · exact ⟨_, rfl⟩

/-- A slot that does not pass is not the id of the campaign returned. -/
theorem GetPopup_ne_of_skip {codec : JSONCodec} {s : Cache} {f : ReadFaults} {now u id : Int}
    (hskip : pick codec s f now u id = none) (c : Campaign)
    (h : GetPopup (repository codec s f) now u = .ok (some c)) : c.ID ≠ id := by
  intro hid
  obtain ⟨hm, hp⟩ := GetPopup_passes h
  rw [hid] at hm hp
  simp [pick, hm, hp] at hskip

/-- C7. Fail-closed sub-lookups. Let `id` be the slot of index member `m`, and let the
counter read for (`u`, `id`) return an error, or let the campaign fetched for `id` be of
type `SEGMENT` and the membership test for (`id`, `u`) return an error, while the metadata
batch as a whole does not fail. Then `GetPopup` does not return that candidate, returns no
error unless the index read itself fails, and its result equals the result on the cache
with `m` removed from the active index. -/
theorem fail_closed_sub_lookups (codec : JSONCodec) (s : Cache) (f : ReadFaults)
    (now u : Int) (m : String) (id : Int)
    (hid : slotID m = id) (hx : f.exec = none)
    (hfail : (∃ err, GetUserImpressions s f u [id] = .error err) ∨
      (∃ c err, decodeMeta codec s f id = some c ∧ c.TargetType = TargetTypeSegment ∧
        IsUserTargeted s f id u = .error err)) :
    (∀ c, GetPopup (repository codec s f) now u = .ok (some c) → c.ID ≠ id) ∧
    (f.zrevrange = none → ∃ r, GetPopup (repository codec s f) now u = .ok r) ∧
    GetPopup (repository codec s f) now u =
      GetPopup (repository codec { s with active := ZRem s.active m } f) now u := by
  have hskip : pick codec s f now u id = none := by
    unfold pick
    cases hm : decodeMeta codec s f id with
    | none => rfl
    | some camp =>
      have : ¬ passes s f now u id camp := by
        intro hp
        rcases hfail with ⟨err, he⟩ | ⟨c, err, hc, hseg, he⟩
        · simp [GetUserImpressions, hp.2.2.2.1] at he
        · rw [hm] at hc
          cases hc
          simp [IsUserTargeted, (hp.2.2.1 hseg).1] at he
      simp [this]
  refine ⟨GetPopup_ne_of_skip hskip, fun hz => GetPopup_ok codec s f now u hz hx, ?_⟩
  exact GetPopup_ZRem_skip codec s f now u m hx (hid ▸ hskip)

/-- C7, at the fixtures: the counter read of user 7 for A fails; A is skipped and B, next
in the index, is returned, as if A were not in the index. -/
theorem fail_closed_sub_lookups_witness :
    GetPopup (repository fixtures.codec fixtures.cacheAB fixtures.hmgetDown) 50 7
        ≠ .ok (some fixtures.campA) ∧
    (∃ r, GetPopup (repository fixtures.codec fixtures.cacheAB fixtures.hmgetDown) 50 7
        = .ok r) ∧
    GetPopup (repository fixtures.codec fixtures.cacheAB fixtures.hmgetDown) 50 7 =
      GetPopup (repository fixtures.codec
        { fixtures.cacheAB with active := ZRem fixtures.cacheAB.active "1" }
        fixtures.hmgetDown) 50 7 := by
  have h := fail_closed_sub_lookups fixtures.codec fixtures.cacheAB fixtures.hmgetDown 50 7
    "1" 1 (by decide) rfl (Or.inl ⟨"timeout", rfl⟩)
  exact ⟨fun hA => h.1 fixtures.campA hA rfl, h.2.1 rfl, h.2.2⟩

/-- C8. Missing-metadata resilience. (1) For every list of candidate ids and every metadata
map, evaluating the list gives the same result as evaluating it with an id that has no
entry in the map removed. (2) On the cache: when the slot of index member `m` has no
metadata key and the metadata batch does not fail as a whole, `GetPopup` does not return
that id, returns no error unless the index read fails, and its result equals the result on
the cache with `m` removed from the active index. -/
theorem missing_metadata_resilience :
    (∀ (repo : Repository) (campMap : Int → Option Campaign) (now u : Int) (ids : List Int)
      (id : Int), campMap id = none →
      evalLoop repo campMap now u ids =
        evalLoop repo campMap now u (ids.filter (fun j => decide (j ≠ id)))) ∧
    (∀ (codec : JSONCodec) (s : Cache) (f : ReadFaults) (now u : Int) (m : String),
      s.metaKeys (slotID m) = none → f.exec = none →
      (∀ c, GetPopup (repository codec s f) now u = .ok (some c) → c.ID ≠ slotID m) ∧
      (f.zrevrange = none → ∃ r, GetPopup (repository codec s f) now u = .ok r) ∧
      GetPopup (repository codec s f) now u =
        GetPopup (repository codec { s with active := ZRem s.active m } f) now u) := by
  constructor
  · intro repo campMap now u ids id hnone
    induction ids with
    | nil => rfl
    | cons j rest ih =>
      by_cases hj : j = id
      · subst hj
        simp only [List.filter_cons, ne_eq, not_true_eq_false, decide_False, Bool.false_eq_true,
          if_false, evalLoop, hnone]
        exact ih
      · simp only [List.filter_cons, ne_eq, hj, not_false_eq_true, decide_True, if_true]
        unfold evalLoop
        rw [ih]
  · intro codec s f now u m hmeta hx
    have hd : decodeMeta codec s f (slotID m) = none := by
      unfold decodeMeta
      rw [hmeta]
      cases f.get (slotID m) <;> rfl
    have hskip : pick codec s f now u (slotID m) = none := by
      unfold pick
      rw [hd]
    exact ⟨GetPopup_ne_of_skip hskip, fun hz => GetPopup_ok codec s f now u hz hx,
      GetPopup_ZRem_skip codec s f now u m hx hskip⟩

end campaign

namespace campaign

open redis strconv

/-- C8, at the fixtures: N is in the index, first, without metadata; it is skipped and A
is returned, as if N were not in the index. -/
theorem missing_metadata_resilience_witness :
    (evalLoop (repository fixtures.codec fixtures.cacheStale ReadFaults.none)
        (decodeMeta fixtures.codec fixtures.cacheStale ReadFaults.none) 50 7 [9, 1, 2] =
      evalLoop (repository fixtures.codec fixtures.cacheStale ReadFaults.none)
        (decodeMeta fixtures.codec fixtures.cacheStale ReadFaults.none) 50 7
        ([9, 1, 2].filter (fun j => decide (j ≠ 9)))) ∧
    (GetPopup (repository fixtures.codec fixtures.cacheStale ReadFaults.none) 50 7
        ≠ .ok (some fixtures.campN) ∧
     (∃ r, GetPopup (repository fixtures.codec fixtures.cacheStale ReadFaults.none) 50 7
        = .ok r) ∧
     GetPopup (repository fixtures.codec fixtures.cacheStale ReadFaults.none) 50 7 =
      GetPopup (repository fixtures.codec
        { fixtures.cacheStale with active := ZRem fixtures.cacheStale.active "9" }
        ReadFaults.none) 50 7) := by
  have h := missing_metadata_resilience.2 fixtures.codec fixtures.cacheStale ReadFaults.none
    50 7 "9" (by decide) rfl
  exact ⟨missing_metadata_resilience.1 _ _ 50 7 [9, 1, 2] 9 (by decide),
    fun hN => h.1 fixtures.campN hN (by decide), h.2.1 rfl, h.2.2⟩

end campaign

/-! ## C9: saving twice -/

namespace redis

open campaign strconv

theorem ZRem_idem (z : List (String × Int)) (m : String) : ZRem (ZRem z m) m = ZRem z m := by
  unfold ZRem
  rw [List.filter_filter]
  simp

theorem ZAdd_idem (z : List (String × Int)) (sc : Int) (m : String) :
    ZAdd (ZAdd z sc m) sc m = ZAdd z sc m := by
  unfold ZAdd
  simp [List.filter_cons, List.filter_filter]

/-- C9. Sync idempotence. After a `SaveCampaign(c)` that succeeded, a second
`SaveCampaign(c)` with the same campaign value, whatever the outcome of its commands,
leaves exactly the cache the first call left: metadata entry, index membership and
score. -/
theorem sync_idempotence (codec : JSONCodec) (s : Cache) (c : Campaign) (pf pf' : PipeFaults)
    (h : (SaveCampaign codec s pf c).1 = none) :
    (SaveCampaign codec (SaveCampaign codec s pf c).2 pf' c).2 = (SaveCampaign codec s pf c).2 := by
  have hsv : saved codec s c (SaveCampaign codec s pf c).2 := ⟨pf, Prod.ext h rfl⟩
  have he := saved_eq hsv
  generalize (SaveCampaign codec s pf c).2 = s1 at he ⊢
  subst he
  unfold SaveCampaign
  by_cases hact : c.IsActive = true
  · cases h0 : pf' 0 <;> cases h1 : pf' 1 <;>
      simp [hact, ZAdd_idem]
  · have hf : c.IsActive = false := by simpa using hact
    cases h0 : pf' 0 <;> cases h1 : pf' 1 <;>
      simp [hf, ZRem_idem]

/-- C9, at the fixtures: saving A a second time leaves `cacheA`. -/
theorem sync_idempotence_witness :
    (SaveCampaign fixtures.codec fixtures.cacheA PipeFaults.none fixtures.campA).2
      = fixtures.cacheA :=
  sync_idempotence fixtures.codec Cache.empty fixtures.campA PipeFaults.none PipeFaults.none rfl

end redis

/-! ## C10: durable store first, cache second -/

namespace redis

open campaign strconv

/-- What a successful `SaveCampaign` leaves in the cache for the campaign: its snapshot as
metadata, and its member in the index, with its score, exactly when it is active. -/
theorem saved_content {codec : JSONCodec} {s s1 : Cache} {c : Campaign}
    (h : saved codec s c s1) :
    s1.metaKeys c.ID = some (codec.Marshal c) ∧
    (c.IsActive = true → (FormatInt c.ID, float64 c.Priority) ∈ s1.active) ∧
    (c.IsActive = false → FormatInt c.ID ∉ s1.active.map Prod.fst) := by
  have he := saved_eq h
  subst he
  refine ⟨by simp, ?_, ?_⟩
  · intro hact
    simp [hact, ZAdd]
  · intro hact hmem
    simp only [hact, Bool.false_eq_true, if_false] at hmem
    exact ((mem_ZRem s.active (FormatInt c.ID) (FormatInt c.ID)).mp hmem).1 rfl

/-- What a successful `RemoveCampaign` leaves in the cache for the id: nothing. -/
theorem removed_content {s s1 : Cache} {id : Int} (h : removed s id s1) :
    s1.metaKeys id = none ∧ FormatInt id ∉ s1.active.map Prod.fst := by
  have he := removed_eq h
  subst he
  refine ⟨by simp, ?_⟩
  intro hmem
  exact ((mem_ZRem s.active (FormatInt id) (FormatInt id)).mp hmem).1 rfl

end redis

namespace campaign

open redis strconv

/-- C10. Write ordering of the administrative mutations. For each of `CreateCampaign`,
`UpdateCampaign` and `DeleteCampaign`:
(a) when the durable write returns an error, that error is returned and the cache and the
durable store are left as they were, whatever the cache commands would have done: no cache
operation is issued;
(b) when the durable write succeeds and the cache write returns an error, that error is
returned and the durable store is the one the durable write left: nothing is rolled back;
(c) when the durable write succeeds, the cache is written second: the result is the
result of the cache call (`SaveCampaign` of the campaign, for a create with the id the
database assigned; `RemoveCampaign` of the id) on the cache as it was, the cache is the
cache that call leaves, the durable store is the one the durable write left; and when the
cache call succeeds too, the cache holds the campaign's snapshot as metadata and its member
in the index exactly when it is active, respectively no metadata and no member for a
deleted id. -/
theorem durable_first_cache_second :
    (∀ (codec : JSONCodec) (w : World) (dbOutcome : Except String Int) (pf : PipeFaults)
      (c : Campaign),
      (∀ err, (postgres.Create w.db dbOutcome c).1 = some err →
        (CreateCampaign codec w dbOutcome pf c).1 = some err ∧
        (CreateCampaign codec w dbOutcome pf c).2.2.cache = w.cache ∧
        (CreateCampaign codec w dbOutcome pf c).2.2.db = w.db) ∧
      ((postgres.Create w.db dbOutcome c).1 = none →
        ∀ err, (SaveCampaign codec w.cache pf (postgres.Create w.db dbOutcome c).2.1).1 = some err →
        (CreateCampaign codec w dbOutcome pf c).1 = some err ∧
        (CreateCampaign codec w dbOutcome pf c).2.2.db = (postgres.Create w.db dbOutcome c).2.2 ∧
        ∃ id, dbOutcome = .ok id ∧
          (CreateCampaign codec w dbOutcome pf c).2.2.db.campaigns id
            = some (postgres.row id c)) ∧
      (∀ id, dbOutcome = .ok id →
        (CreateCampaign codec w dbOutcome pf c).2.1 = { c with ID := id } ∧
        (CreateCampaign codec w dbOutcome pf c).1
          = (SaveCampaign codec w.cache pf { c with ID := id }).1 ∧
        (CreateCampaign codec w dbOutcome pf c).2.2.cache
          = (SaveCampaign codec w.cache pf { c with ID := id }).2 ∧
        (CreateCampaign codec w dbOutcome pf c).2.2.db.campaigns id
          = some (postgres.row id c) ∧
        ((CreateCampaign codec w dbOutcome pf c).1 = none →
          (CreateCampaign codec w dbOutcome pf c).2.2.cache.metaKeys id
            = some (codec.Marshal { c with ID := id }) ∧
          (c.IsActive = true → (FormatInt id, float64 c.Priority)
            ∈ (CreateCampaign codec w dbOutcome pf c).2.2.cache.active) ∧
          (c.IsActive = false → FormatInt id
            ∉ (CreateCampaign codec w dbOutcome pf c).2.2.cache.active.map Prod.fst)))) ∧
    (∀ (codec : JSONCodec) (w : World) (dbOutcome : Option String) (pf : PipeFaults)
      (c : Campaign),
      (∀ err, (postgres.Update w.db dbOutcome c).1 = some err →
        (UpdateCampaign codec w dbOutcome pf c).1 = some err ∧
        (UpdateCampaign codec w dbOutcome pf c).2.cache = w.cache ∧
        (UpdateCampaign codec w dbOutcome pf c).2.db = w.db) ∧
      ((postgres.Update w.db dbOutcome c).1 = none →
        ∀ err, (SaveCampaign codec w.cache pf c).1 = some err →
        (UpdateCampaign codec w dbOutcome pf c).1 = some err ∧
        (UpdateCampaign codec w dbOutcome pf c).2.db = (postgres.Update w.db dbOutcome c).2 ∧
        (UpdateCampaign codec w dbOutcome pf c).2.db.campaigns c.ID
          = some (postgres.row c.ID c)) ∧
      ((postgres.Update w.db dbOutcome c).1 = none →
        (UpdateCampaign codec w dbOutcome pf c).1 = (SaveCampaign codec w.cache pf c).1 ∧
        (UpdateCampaign codec w dbOutcome pf c).2.cache = (SaveCampaign codec w.cache pf c).2 ∧
        (UpdateCampaign codec w dbOutcome pf c).2.db.campaigns c.ID
          = some (postgres.row c.ID c) ∧
        ((UpdateCampaign codec w dbOutcome pf c).1 = none →
          (UpdateCampaign codec w dbOutcome pf c).2.cache.metaKeys c.ID
            = some (codec.Marshal c) ∧
          (c.IsActive = true → (FormatInt c.ID, float64 c.Priority)
            ∈ (UpdateCampaign codec w dbOutcome pf c).2.cache.active) ∧
          (c.IsActive = false → FormatInt c.ID
            ∉ (UpdateCampaign codec w dbOutcome pf c).2.cache.active.map Prod.fst)))) ∧
    (∀ (w : World) (dbOutcome : Option String) (pf : PipeFaults) (id : Int),
      (∀ err, (postgres.Delete w.db dbOutcome id).1 = some err →
        (DeleteCampaign w dbOutcome pf id).1 = some err ∧
        (DeleteCampaign w dbOutcome pf id).2.cache = w.cache ∧
        (DeleteCampaign w dbOutcome pf id).2.db = w.db) ∧
      ((postgres.Delete w.db dbOutcome id).1 = none →
        ∀ err, (RemoveCampaign w.cache pf id).1 = some err →
        (DeleteCampaign w dbOutcome pf id).1 = some err ∧
        (DeleteCampaign w dbOutcome pf id).2.db = (postgres.Delete w.db dbOutcome id).2 ∧
        (DeleteCampaign w dbOutcome pf id).2.db.campaigns id = none) ∧
      ((postgres.Delete w.db dbOutcome id).1 = none →
        (DeleteCampaign w dbOutcome pf id).1 = (RemoveCampaign w.cache pf id).1 ∧
        (DeleteCampaign w dbOutcome pf id).2.cache = (RemoveCampaign w.cache pf id).2 ∧
        (DeleteCampaign w dbOutcome pf id).2.db.campaigns id = none ∧
        ((DeleteCampaign w dbOutcome pf id).1 = none →
          (DeleteCampaign w dbOutcome pf id).2.cache.metaKeys id = none ∧
          FormatInt id ∉ (DeleteCampaign w dbOutcome pf id).2.cache.active.map Prod.fst))) := by
  refine ⟨?_, ?_, ?_⟩
  · intro codec w dbOutcome pf c
    cases dbOutcome with
    | error e0 =>
      refine ⟨?_, ?_, ?_⟩
      · intro err herr
        exact ⟨herr, rfl, rfl⟩
      · intro h0
        simp [postgres.Create] at h0
      · intro id hid
        cases hid
    | ok id =>
      refine ⟨?_, ?_, ?_⟩
      · intro err herr
        simp [postgres.Create] at herr
      · intro _ err herr
        exact ⟨herr, rfl, id, rfl, by simp [CreateCampaign, postgres.Create]⟩
      · intro id' hid
        cases hid
        refine ⟨rfl, rfl, rfl, by simp [CreateCampaign, postgres.Create], ?_⟩
        intro hok
        have hsv : saved codec w.cache { c with ID := id }
            (SaveCampaign codec w.cache pf { c with ID := id }).2 := ⟨pf, Prod.ext hok rfl⟩
        exact saved_content hsv
  · intro codec w dbOutcome pf c
    cases dbOutcome with
    | some e0 =>
      refine ⟨?_, ?_, ?_⟩
      · intro err herr
        exact ⟨herr, rfl, rfl⟩
      · intro h0
        simp [postgres.Update] at h0
      · intro h0
        simp [postgres.Update] at h0
    | none =>
      cases hrow : w.db.campaigns c.ID with
      | none =>
        refine ⟨?_, ?_, ?_⟩
        · intro err herr
          simp only [postgres.Update, hrow] at herr
          simp only [UpdateCampaign, postgres.Update, hrow]
          exact ⟨herr, trivial, trivial⟩
        · intro h0
          simp [postgres.Update, hrow] at h0
        · intro h0
          simp [postgres.Update, hrow] at h0
      | some r =>
        refine ⟨?_, ?_, ?_⟩
        · intro err herr
          simp [postgres.Update, hrow] at herr
        · intro _ err herr
          simp only [UpdateCampaign, postgres.Update, hrow]
          exact ⟨herr, trivial, by simp⟩
        · intro _
          simp only [UpdateCampaign, postgres.Update, hrow]
          refine ⟨trivial, trivial, by simp, ?_⟩
          intro hok
          have hsv : saved codec w.cache c (SaveCampaign codec w.cache pf c).2 :=
            ⟨pf, Prod.ext hok rfl⟩
          exact saved_content hsv
  · intro w dbOutcome pf id
    cases dbOutcome with
    | some e0 =>
      refine ⟨?_, ?_, ?_⟩
      · intro err herr
        exact ⟨herr, rfl, rfl⟩
      · intro h0
        simp [postgres.Delete] at h0
      · intro h0
        simp [postgres.Delete] at h0
    | none =>
      refine ⟨?_, ?_, ?_⟩
      · intro err herr
        simp [postgres.Delete] at herr
      · intro _ err herr
        exact ⟨herr, rfl, by simp [DeleteCampaign, postgres.Delete]⟩
      · intro _
        refine ⟨rfl, rfl, by simp [DeleteCampaign, postgres.Delete], ?_⟩
        intro hok
        have hrm : removed w.cache id (RemoveCampaign w.cache pf id).2 :=
          ⟨pf, Prod.ext hok rfl⟩
        exact removed_content hrm

/-- C10, at the fixtures: a failed durable write leaves the cache and the store; a failed
cache write after a durable write leaves the durable write in place; when both succeed the
cache holds what the cache call wrote, for a create under the id the database assigned. -/
theorem durable_first_cache_second_witness :
    ((CreateCampaign fixtures.codec fixtures.world (.error "db down") PipeFaults.none
        fixtures.campB).1 = some "failed to create campaign: db down" ∧
      (CreateCampaign fixtures.codec fixtures.world (.error "db down") PipeFaults.none
        fixtures.campB).2.2.cache = fixtures.world.cache) ∧
    ((CreateCampaign fixtures.codec fixtures.world (.ok 2) fixtures.firstFails
        fixtures.campB).1 = some "timeout" ∧
      (CreateCampaign fixtures.codec fixtures.world (.ok 2) fixtures.firstFails
        fixtures.campB).2.2.db.campaigns 2 = some (postgres.row 2 fixtures.campB)) ∧
    ((CreateCampaign fixtures.codec fixtures.world (.ok 5) PipeFaults.none
        fixtures.campB).2.1 = { fixtures.campB with ID := 5 } ∧
      (CreateCampaign fixtures.codec fixtures.world (.ok 5) PipeFaults.none
        fixtures.campB).2.2.cache.metaKeys 5
        = some (fixtures.codec.Marshal { fixtures.campB with ID := 5 }) ∧
      (FormatInt 5, float64 fixtures.campB.Priority)
        ∈ (CreateCampaign fixtures.codec fixtures.world (.ok 5) PipeFaults.none
            fixtures.campB).2.2.cache.active) ∧
    ((UpdateCampaign fixtures.codec fixtures.world none PipeFaults.none fixtures.campB).1
        = some "campaign not found" ∧
      (UpdateCampaign fixtures.codec fixtures.world none PipeFaults.none fixtures.campB).2.cache
        = fixtures.world.cache) ∧
    ((UpdateCampaign fixtures.codec fixtures.world none fixtures.firstFails fixtures.campA).1
        = some "timeout" ∧
      (UpdateCampaign fixtures.codec fixtures.world none fixtures.firstFails
        fixtures.campA).2.db.campaigns 1 = some (postgres.row 1 fixtures.campA)) ∧
    ((UpdateCampaign fixtures.codec fixtures.world none PipeFaults.none
        { fixtures.campA with IsActive := false }).2.cache.metaKeys 1
        = some (fixtures.codec.Marshal { fixtures.campA with IsActive := false }) ∧
      FormatInt 1 ∉ (UpdateCampaign fixtures.codec fixtures.world none PipeFaults.none
        { fixtures.campA with IsActive := false }).2.cache.active.map Prod.fst) ∧
    ((DeleteCampaign fixtures.world (some "db down") PipeFaults.none 1).1 = some "db down" ∧
      (DeleteCampaign fixtures.world (some "db down") PipeFaults.none 1).2.cache
        = fixtures.world.cache) ∧
    ((DeleteCampaign fixtures.world none fixtures.firstFails 1).1 = some "timeout" ∧
      (DeleteCampaign fixtures.world none fixtures.firstFails 1).2.db.campaigns 1 = none) ∧
    ((DeleteCampaign fixtures.world none PipeFaults.none 1).2.cache.metaKeys 1 = none ∧
      FormatInt 1 ∉ (DeleteCampaign fixtures.world none PipeFaults.none 1).2.cache.active.map
        Prod.fst) := by
  obtain ⟨hC, hU, hD⟩ := durable_first_cache_second
  refine ⟨?_, ?_, ?_, ?_, ?_, ?_, ?_, ?_, ?_⟩
  · have h := (hC fixtures.codec fixtures.world (.error "db down") PipeFaults.none
      fixtures.campB).1 _ rfl
    exact ⟨h.1, h.2.1⟩
  · have h := (hC fixtures.codec fixtures.world (.ok 2) fixtures.firstFails
      fixtures.campB).2.1 rfl "timeout" rfl
    obtain ⟨id, hid, hrow⟩ := h.2.2
    cases hid
    exact ⟨h.1, hrow⟩
  · have h := (hC fixtures.codec fixtures.world (.ok 5) PipeFaults.none
      fixtures.campB).2.2 5 rfl
    have hc := h.2.2.2.2 rfl
    exact ⟨h.1, hc.1, hc.2.1 rfl⟩
  · have h := (hU fixtures.codec fixtures.world none PipeFaults.none fixtures.campB).1 _ rfl
    exact ⟨h.1, h.2.1⟩
  · have h := (hU fixtures.codec fixtures.world none fixtures.firstFails
      fixtures.campA).2.1 rfl "timeout" rfl
    exact ⟨h.1, h.2.2⟩
  · have h := (hU fixtures.codec fixtures.world none PipeFaults.none
      { fixtures.campA with IsActive := false }).2.2 rfl
    have hc := h.2.2.2 rfl
    exact ⟨hc.1, hc.2.2 rfl⟩
  · have h := (hD fixtures.world (some "db down") PipeFaults.none 1).1 _ rfl
    exact ⟨h.1, h.2.1⟩
  · have h := (hD fixtures.world none fixtures.firstFails 1).2.1 rfl "timeout" rfl
    exact ⟨h.1, h.2.2⟩
  · have h := (hD fixtures.world none PipeFaults.none 1).2.2 rfl
    exact h.2.2.2 rfl

end campaign

/-! ## C11: remove -/

namespace campaign

open redis strconv

theorem decodeMeta_none_of_no_key {codec : JSONCodec} {s : Cache} {f : ReadFaults} {id : Int}
    (h : s.metaKeys id = none) : decodeMeta codec s f id = none := by
  unfold decodeMeta
  rw [h]
  cases f.get id <;> rfl

/-- C11. Remove. After a successful `RemoveCampaign(id)`: the id is not a member of the
active index and has no metadata entry; the index entries of every other id, the order in
which the remaining members are listed, and the metadata of every other id are unchanged;
and `GetPopup` does not return a campaign with that id, for any user, instant and read
outcomes. -/
theorem remove_campaign (s s1 : Cache) (id : Int) (h : removed s id s1) :
    FormatInt id ∉ s1.active.map Prod.fst ∧
    s1.metaKeys id = none ∧
    (∀ (j : Int) (sc : Int), j ≠ id →
      ((FormatInt j, sc) ∈ s1.active ↔ (FormatInt j, sc) ∈ s.active)) ∧
    ZRevRange s1.active = (ZRevRange s.active).filter (fun m => decide (m ≠ FormatInt id)) ∧
    (∀ j : Int, j ≠ id → s1.metaKeys j = s.metaKeys j) ∧
    (∀ (codec : JSONCodec) (f : ReadFaults) (now u : Int) (c : Campaign),
      GetPopup (repository codec s1 f) now u = .ok (some c) → c.ID ≠ id) := by
  have he := removed_eq h
  subst he
  have hmeta : Function.update s.metaKeys id none id = none := by simp
  refine ⟨?_, hmeta, ?_, ?_, ?_, ?_⟩
  · intro hmem
    exact ((mem_ZRem s.active (FormatInt id) (FormatInt id)).mp hmem).1 rfl
  · intro j sc hj
    have hne : FormatInt j ≠ FormatInt id := fun h0 => hj (FormatInt_injective h0)
    simp only [ZRem, List.mem_filter, decide_eq_true_eq]
    constructor
    · exact fun h1 => h1.1
    · exact fun h1 => ⟨h1, hne⟩
  · exact ZRevRange_ZRem s.active (FormatInt id)
  · intro j hj
    simp [Function.update, hj]
  · intro codec f now u c hget hid
    have hd := (GetPopup_passes hget).1
    rw [hid, decodeMeta_none_of_no_key hmeta] at hd
    cases hd

/-- C11, at the fixtures: after A and B are saved and A is removed, A is out of the index
and has no metadata, B's entry and metadata are as before, and A is not returned. -/
theorem remove_campaign_witness :
    FormatInt 1 ∉ fixtures.cacheRemoved.active.map Prod.fst ∧
    fixtures.cacheRemoved.metaKeys 1 = none ∧
    ((FormatInt 2, 5) ∈ fixtures.cacheRemoved.active ↔ (FormatInt 2, 5) ∈ fixtures.cacheAB.active) ∧
    fixtures.cacheRemoved.metaKeys 2 = fixtures.cacheAB.metaKeys 2 ∧
    GetPopup (repository fixtures.codec fixtures.cacheRemoved ReadFaults.none) 50 7
      ≠ .ok (some fixtures.campA) := by
  have h := remove_campaign fixtures.cacheAB fixtures.cacheRemoved 1 ⟨PipeFaults.none, rfl⟩
  exact ⟨h.1, h.2.1, h.2.2.1 2 5 (by decide), h.2.2.2.2.1 2 (by decide),
    fun hA => h.2.2.2.2.2 fixtures.codec ReadFaults.none 50 7 fixtures.campA hA rfl⟩

end campaign

/-! ## C12: replaying a write -/

namespace redis

open campaign strconv

/-- A `SaveCampaign` of the campaign just saved changes nothing, whatever its commands do. -/
theorem SaveCampaign_replay (codec : JSONCodec) (s s1 : Cache) (c : Campaign) (pf' : PipeFaults)
    (h : saved codec s c s1) : (SaveCampaign codec s1 pf' c).2 = s1 := by
  have he := saved_eq h
  subst he
  unfold SaveCampaign
  by_cases hact : c.IsActive = true
  · cases h0 : pf' 0 <;> cases h1 : pf' 1 <;>
      simp [hact, ZAdd_idem]
  · have hf : c.IsActive = false := by simpa using hact
    cases h0 : pf' 0 <;> cases h1 : pf' 1 <;>
      simp [hf, ZRem_idem]

/-- A `RemoveCampaign` of the id just removed changes nothing, whatever its commands do. -/
theorem RemoveCampaign_replay (s s1 : Cache) (id : Int) (pf' : PipeFaults)
    (h : removed s id s1) : (RemoveCampaign s1 pf' id).2 = s1 := by
  have he := removed_eq h
  subst he
  unfold RemoveCampaign
  cases h0 : pf' 0 <;> cases h1 : pf' 1 <;> cases h2 : pf' 2 <;>
    simp [ZRem_idem]

/-- A successful `IncrementImpression` adds one to the counter. -/
theorem IncrementImpression_count {s s1 : Cache} {hincrby expire : Option String} {u cid : Int}
    (h : IncrementImpression s hincrby expire u cid = (none, s1)) :
    (s1.impressions u cid).getD 0 = (s.impressions u cid).getD 0 + 1 := by
  unfold IncrementImpression at h
  cases hh : hincrby with
  | some e => simp [hh] at h
  | none =>
    simp only [hh] at h
    split at h
    · cases h
    · cases hex : expire <;> simp only [hex] at h <;> cases h <;> simp

end redis

namespace campaign

open redis strconv

/-- C12, as stated, fails: from the cache where A is saved, one `RegisterImpression` of
user 7 for campaign 1 leaves the counter at 1, the same call replayed leaves it at 2. -/
theorem impression_replay_counts_twice :
    (RegisterImpression fixtures.cacheA none none 7 1).1 = none ∧
    (RegisterImpression fixtures.cacheA none none 7 1).2.impressions 7 1 = some 1 ∧
    (RegisterImpression (RegisterImpression fixtures.cacheA none none 7 1).2 none none 7 1).1
      = none ∧
    (RegisterImpression (RegisterImpression fixtures.cacheA none none 7 1).2
      none none 7 1).2.impressions 7 1 = some 2 := by
  decide

/-- C12, amended. The writes of the cache synchronizer are idempotent when replayed with
the same arguments: after a successful `SaveCampaign(c)`, respectively a successful
`RemoveCampaign(id)`, the same call applied again leaves the same cache. The impression
write is not: every successful `RegisterImpression(u, cid)` adds exactly one to the
counter of (`u`, `cid`), so a replay leaves a different cache. -/
theorem replay_idempotence :
    (∀ (codec : JSONCodec) (s : Cache) (c : Campaign) (pf pf' : PipeFaults),
      (SaveCampaign codec s pf c).1 = none →
      (SaveCampaign codec (SaveCampaign codec s pf c).2 pf' c).2
        = (SaveCampaign codec s pf c).2) ∧
    (∀ (s : Cache) (id : Int) (pf pf' : PipeFaults),
      (RemoveCampaign s pf id).1 = none →
      (RemoveCampaign (RemoveCampaign s pf id).2 pf' id).2 = (RemoveCampaign s pf id).2) ∧
    (∀ (s s1 s2 : Cache) (u cid : Int) (h1 e1 h2 e2 : Option String),
      RegisterImpression s h1 e1 u cid = (none, s1) →
      RegisterImpression s1 h2 e2 u cid = (none, s2) →
      (s1.impressions u cid).getD 0 = (s.impressions u cid).getD 0 + 1 ∧
      (s2.impressions u cid).getD 0 = (s1.impressions u cid).getD 0 + 1 ∧
      s2 ≠ s1) := by
  refine ⟨?_, ?_, ?_⟩
  · intro codec s c pf pf' h
    exact SaveCampaign_replay codec s _ c pf' ⟨pf, Prod.ext h rfl⟩
  · intro s id pf pf' h
    exact RemoveCampaign_replay s _ id pf' ⟨pf, Prod.ext h rfl⟩
  · intro s s1 s2 u cid h1 e1 h2 e2 hr1 hr2
    have c1 := IncrementImpression_count hr1
    have c2 := IncrementImpression_count hr2
    refine ⟨c1, c2, ?_⟩
    intro heq
    rw [heq] at c2
    omega

/-- C12 amended, at the fixtures: saving A again and removing A again change nothing; a
second impression moves the counter from 1 to 2. -/
theorem replay_idempotence_witness :
    (SaveCampaign fixtures.codec fixtures.cacheA PipeFaults.none fixtures.campA).2
      = fixtures.cacheA ∧
    (RemoveCampaign fixtures.cacheRemoved fixtures.firstFails 1).2 = fixtures.cacheRemoved ∧
    ((RegisterImpression (RegisterImpression fixtures.cacheA none none 7 1).2
        none none 7 1).2.impressions 7 1).getD 0
      = ((RegisterImpression fixtures.cacheA none none 7 1).2.impressions 7 1).getD 0 + 1 := by
  refine ⟨replay_idempotence.1 fixtures.codec Cache.empty fixtures.campA PipeFaults.none
      PipeFaults.none rfl,
    replay_idempotence.2.1 fixtures.cacheAB 1 PipeFaults.none fixtures.firstFails rfl, ?_⟩
  exact (replay_idempotence.2.2 fixtures.cacheA _ _ 7 1 none none none none rfl rfl).2.1

end campaign

/-! ## C13: index members that do not parse -/

namespace campaign

open redis strconv

/-- On members that all parse, the slots are the parsed values: the two readings differ
only at a member that does not parse. -/
theorem map_slotID_eq_validIDs (members : List String)
    (h : ∀ m ∈ members, (ParseInt m).isSome = true) :
    members.map slotID = validIDs members := by
  induction members with
  | nil => rfl
  | cons m rest ih =>
    have hm := h m (List.mem_cons_self _ _)
    obtain ⟨v, hv⟩ := Option.isSome_iff_exists.mp hm
    have ih1 := ih (fun x hx => h x (List.mem_cons_of_mem _ hx))
    unfold validIDs at ih1 ⊢
    simp [slotID, hv, ih1]

/-- C13, which the code misses. With the index members `x` (score 5) and `7` (score 1),
`GetActiveCampaignIDs` returns the ids 0 and 7, where the parsed values of the valid
members are just 7: the member that does not parse is not skipped, its slot keeps the
zero value. No member of the index parses to 0, and yet `GetPopup` evaluates id 0 and
returns the campaign stored under it. -/
theorem invalid_member_yields_zero_id :
    ZRevRange fixtures.cacheBad.active = ["x", "7"] ∧
    GetActiveCampaignIDs fixtures.cacheBad ReadFaults.none = .ok [0, 7] ∧
    validIDs (ZRevRange fixtures.cacheBad.active) = [7] ∧
    (∀ m ∈ ZRevRange fixtures.cacheBad.active, ParseInt m ≠ some 0) ∧
    GetPopup (repository fixtures.codecZ fixtures.cacheBad ReadFaults.none) 50 7
      = .ok (some fixtures.campZ) := by
  decide

end campaign
